import Mathlib

/-!
Verification of the md-kb synchronization-and-search engine.

This file gives a shallow embedding, in Lean 4, of the core of the md-kb
repository (a markdown knowledge base with semantic search):

* `src/md_kb/models.py`    — the `MarkdownDocument` record and its validation;
* `src/md_kb/database.py`  — the document store: ingest (upsert), get-by-path,
  list, delete, and vector similarity search;
* `src/md_kb/indexer.py`   — checksum computation, the full-reconciliation
  algorithm `index_directory`, the single-file path `index_file`, and the
  mutation API `create_file` / `update_file` / `delete_file` / `list_files`;
* `src/md_kb/watcher.py`   — the per-event body of `watch_directory`;
* `src/md_kb/jsonrpc_server.py` — the `_handle_search` front-end handler.

Modelling decisions, shared by every definition below:

* The external collaborators are parameters, collected in `Env`:
  `embed` is `EmbeddingService.generate_embedding` (returns `none` on failure,
  exactly as the Python returns `None`); `hash` is the SHA-256 content digest
  of `compute_checksum` (an arbitrary deterministic function here);
  `dist` is the pgvector cosine-distance operator `<=>` of the storage
  engine; `markdownDir` is `config.get_markdown_dir()`.
* Vector components and distances are exact rationals (`Rat`); the claims
  under study are order/threshold properties, never rounding properties.
* The PostgreSQL table `markdown_documents` is a `Store`: a list of `Row`
  plus the next value of the `id` sequence.  Timestamps are ticks (`Nat`);
  each operation takes the current tick `now` for the SQL `NOW()`.
  (The burning of sequence values by `ON CONFLICT` inserts is not modelled;
  no claim observes `id` values.)
* The filesystem is an association list `path ↦ contents`; reading a file is
  a lookup.  Filesystem reads and store writes performed by the reconciler
  are additionally recorded in an `Event` trace, so that frame claims
  ("no I/O beyond …") are statements about the trace.
* Python exceptions are `Except String`; a function that mutates state
  returns its post-state next to the `Except`, so that "the store is
  unchanged on failure" is a real statement, not a typing accident.
* Python string methods are re-implemented on `List Char` (`strLower`,
  `strEndsWith`, …) because they must evaluate inside the kernel; each is a
  direct transcription of the CPython semantics used by the source.
-/

/-! ## String helpers (Python string/pathlib operations) -/

/-- Python `str.lower()` restricted to the ASCII arguments the code uses. -/
def strLower (s : String) : String := String.mk (s.data.map Char.toLower)

/-- Python `str.endswith(post)`. -/
def strEndsWith (s post : String) : Bool := post.data.isSuffixOf s.data

/-- Characters of a string split on a separator character; mirrors Python
`str.split(sep)` (so `split_chars '/' "a/b".data = ["a".data, "b".data]`). -/
def split_chars (sep : Char) : List Char → List (List Char)
  | [] => [[]]
  | c :: cs =>
    if c = sep then [] :: split_chars sep cs
    else
      match split_chars sep cs with
      | [] => [[c]]
      | h :: t => (c :: h) :: t

/-- Last path component of a POSIX path: `pathlib.Path(p).name` for the
file paths the code manipulates (no trailing separator). -/
def base_name (p : String) : String :=
  String.mk ((split_chars '/' p.data).getLastD [])

/-- Index of the last occurrence of a character in a character list. -/
def last_index_of (c : Char) (cs : List Char) : Option Nat :=
  ((cs.enum.filter (fun x => x.2 = c)).getLast?).map (fun x => x.1)

/-- Python `pathlib.Path(p).suffix`: the final extension of the last path
component, including the dot; empty when the name has no dot, starts with
its only dot (hidden files) or ends with the dot. -/
def path_suffix (p : String) : String :=
  let name := (base_name p).data
  match last_index_of '.' name with
  | some i => if 0 < i ∧ i < name.length - 1 then String.mk (name.drop i) else ""
  | none => ""

/-- Python `s.replace(str(c), "")`: delete every occurrence of a character. -/
def remove_char (c : Char) (s : String) : String :=
  String.mk (s.data.filter (fun a => a ≠ c))

/-- Filename sanitization of `create_file`/`update_file`/`delete_file`
(`indexer.py` line 214): `filename.replace("/", "").replace("\\", "")`. -/
def sanitize_filename (f : String) : String :=
  remove_char '\\' (remove_char '/' f)

/-! ## Data model (`src/md_kb/models.py`) -/

/-- The `MarkdownDocument` dataclass of `models.py` (lines 13–44).
Note that the dataclass declares *no* `distance` attribute. -/
structure MarkdownDocument where
  id : Option Nat := none
  file_path : String := ""
  checksum : String := ""
  content : String := ""
  embedding : Option (List Rat) := none
  indexed_at : Option Nat := none
  updated_at : Option Nat := none
deriving DecidableEq, Repr

/-- `MarkdownDocument.validate` (`models.py` lines 67–88): collects an error
message for each empty required field, in source order. -/
def MarkdownDocument.validate (doc : MarkdownDocument) : List String :=
  (if doc.file_path = "" then ["file_path: This field is required"] else []) ++
  (if doc.checksum = "" then ["checksum: This field is required"] else []) ++
  (if doc.content = "" then ["content: This field is required"] else [])

/-! ## The store (`markdown_documents` table of `src/md_kb/database.py`) -/

/-- One row of the `markdown_documents` table (`database.py` lines 88–98).
The `embedding` column is nullable in the schema, hence an `Option`. -/
structure Row where
  id : Nat
  file_path : String
  checksum : String
  content : String
  embedding : Option (List Rat)
  indexed_at : Nat
  updated_at : Nat
deriving DecidableEq, Repr

/-- The persisted state: table contents plus the `id` sequence. -/
structure Store where
  rows : List Row
  nextId : Nat
deriving DecidableEq, Repr

/-- The external collaborators of the core (spec §6): embedding client,
fingerprinter, the engine's distance operator, and the configured root. -/
structure Env where
  embed : String → Option (List Rat)
  hash : String → String
  dist : List Rat → List Rat → Rat
  markdownDir : String

/-- The `WHERE file_path = $1` row lookup used by several queries. -/
def find_row (s : Store) (p : String) : Option Row :=
  s.rows.find? (fun r => r.file_path == p)

/-- The table keeps `file_path` UNIQUE (`database.py` line 91). -/
def pathsNodup (s : Store) : Prop :=
  (s.rows.map Row.file_path).Nodup

/-- The upsert statement of `ingest_document` (`database.py` lines 154–163):
`INSERT … ON CONFLICT (file_path) DO UPDATE SET checksum, content, embedding,
updated_at = NOW()`.  An insert stamps `indexed_at`; a conflicting update
keeps `id` and `indexed_at` and refreshes `updated_at`. -/
def upsert_row (s : Store) (p ck c : String) (emb : List Rat) (now : Nat) : Store :=
  match find_row s p with
  | some _ =>
      ⟨s.rows.map (fun r =>
          if r.file_path == p then
            { r with checksum := ck, content := c, embedding := some emb, updated_at := now }
          else r),
        s.nextId⟩
  | none =>
      ⟨s.rows ++ [⟨s.nextId, p, ck, c, some emb, now, now⟩], s.nextId + 1⟩

/-- `DELETE FROM markdown_documents WHERE file_path = $1`
(`delete_document`, `database.py` line 250). -/
def delete_row (s : Store) (p : String) : Store :=
  ⟨s.rows.filter (fun r => r.file_path ≠ p), s.nextId⟩

/-- `_row_to_document` (`database.py` lines 317–335): converts a row to a
`MarkdownDocument`.  Exactly the seven dataclass fields are populated; the
`distance` column a search query may carry is *dropped* here. -/
def row_to_document (r : Row) : MarkdownDocument :=
  { id := some r.id
    file_path := r.file_path
    checksum := r.checksum
    content := r.content
    embedding := r.embedding
    indexed_at := some r.indexed_at
    updated_at := some r.updated_at }

/-! ## Database operations (`src/md_kb/database.py`) -/

/-- `ingest_document` (`database.py` lines 121–170): validate, generate the
embedding, and only then upsert.  The returned pair is (result, post-state);
on any failure the post-state is the untouched input store, because the
function raises before reaching the SQL statement. -/
def ingest_document (env : Env) (now : Nat) (doc : MarkdownDocument) (s : Store) :
    Except String MarkdownDocument × Store :=
  let errors := doc.validate
  if errors = [] then
    match env.embed doc.content with
    | none => (Except.error "Failed to generate embedding for document", s)
    | some emb =>
        let s2 := upsert_row s doc.file_path doc.checksum doc.content emb now
        let doc_id := (find_row s2 doc.file_path).map Row.id
        (Except.ok { doc with id := doc_id }, s2)
  else
    (Except.error ("Invalid document: " ++ String.intercalate ", " errors), s)

/-- `get_document_by_path` (`database.py` lines 173–190). -/
def get_document_by_path (s : Store) (p : String) : Option MarkdownDocument :=
  (find_row s p).map row_to_document

/-- Row order for `ORDER BY indexed_at DESC`.  The SQL names no secondary
key, so ties are returned in an engine-chosen order; the model realizes one
legitimate choice, table order, by using a stable sort. -/
def indexedAtDesc (a b : Row) : Prop := b.indexed_at ≤ a.indexed_at

instance : DecidableRel indexedAtDesc := fun a b => Nat.decLe b.indexed_at a.indexed_at

instance : IsTotal Row indexedAtDesc := ⟨fun a b => Nat.le_total b.indexed_at a.indexed_at⟩

instance : IsTrans Row indexedAtDesc := ⟨fun _ _ _ h1 h2 => Nat.le_trans h2 h1⟩

/-- `get_all_documents` (`database.py` lines 208–234):
`SELECT * FROM markdown_documents ORDER BY indexed_at DESC` with
`LIMIT`/`OFFSET` pagination (`OFFSET` only when no limit is given). -/
def get_all_documents (s : Store) (limit : Option Nat) (offset : Nat) :
    List MarkdownDocument :=
  let sorted := List.insertionSort indexedAtDesc s.rows
  let page :=
    match limit with
    | some l => (sorted.drop offset).take l
    | none => sorted.drop offset
  page.map row_to_document

/-- `get_document_count` (`database.py` lines 193–205). -/
def get_document_count (s : Store) : Nat := s.rows.length

/-- `delete_document` (`database.py` lines 237–258): returns whether a row
with that path existed, and the store with every such row removed. -/
def delete_document (s : Store) (p : String) : Bool × Store :=
  ((find_row s p).isSome, delete_row s p)

/-- Result order for `ORDER BY distance` on the searched pairs
(row, computed distance).  Ties again carry no secondary key. -/
def distanceAsc (a b : Row × Rat) : Prop := a.2 ≤ b.2

instance : DecidableRel distanceAsc := fun a b => Rat.instDecidableLe a.2 b.2

instance : IsTotal (Row × Rat) distanceAsc := ⟨fun a b => le_total a.2 b.2⟩

instance : IsTrans (Row × Rat) distanceAsc := ⟨fun _ _ _ h1 h2 => le_trans h1 h2⟩

/-- `search_documents` (`database.py` lines 261–314).  When the embedding
client fails, the source logs the failure and returns the empty list — it
does not raise (lines 287–289); the `Except.ok []` below is that `return []`.
Otherwise it runs
`SELECT *, embedding <=> $1 AS distance … WHERE embedding <=> $1 <= $2
ORDER BY distance` plus pagination: rows with a NULL embedding never satisfy
the `WHERE` clause.  The computed distance is available in every selected
row and is then discarded by `_row_to_document`. -/
def search_documents (env : Env) (query : String) (limit : Option Nat)
    (offset : Nat) (max_distance : Rat) (s : Store) :
    Except String (List MarkdownDocument) :=
  match env.embed query with
  | none => Except.ok []
  | some q =>
      let selected : List (Row × Rat) :=
        (s.rows.filterMap (fun r => r.embedding.map (fun e => (r, env.dist e q)))).filter
          (fun x => x.2 ≤ max_distance)
      let ordered := List.insertionSort distanceAsc selected
      let page :=
        match limit with
        | some l => (ordered.drop offset).take l
        | none => ordered.drop offset
      Except.ok (page.map (fun x => row_to_document x.1))

/-- Modelled from the spec: `list_filenames` is imported from
`md_kb.database` by `indexer.py` (line 15) and called by `list_files`
(line 323), but no definition of it exists anywhere under `src/`.  The spec
says `listFilenames()` "returns bare filenames (no directory component) for
every indexed Document"; this definition follows those words. -/
def list_filenames (s : Store) : List String :=
  s.rows.map (fun r => base_name r.file_path)

/-! ## Indexer (`src/md_kb/indexer.py`) -/

/-- `find_markdown_files` (`indexer.py` lines 37–51): every regular file
under the root matching `*.md` (the glob is case-sensitive).  The model's
filesystem holds only regular files, keyed by full path. -/
def find_markdown_files (fs : List (String × String)) : List (String × String) :=
  fs.filter (fun pc => strEndsWith pc.1 ".md")

/-- Reconciliation counters (`indexer.py` lines 76–82).  The source names
the creation counter `indexed`; the spec calls it `created`. -/
structure Stats where
  indexed : Nat
  updated : Nat
  deleted : Nat
  skipped : Nat
  errors : Nat
deriving DecidableEq, Repr

/-- All counters zero, as initialized at `indexer.py` lines 76–82. -/
def Stats.zero : Stats := ⟨0, 0, 0, 0, 0⟩

/-- Observable I/O of the reconciler, recorded as a trace: the checksum
pass over a file's bytes, the full content read, the store upsert of the
ingest path, and the store delete of the deletion pass. -/
inductive Event where
  | fingerprintRead (path : String)
  | contentRead (path : String)
  | upsertDoc (path : String)
  | deleteDoc (path : String)
deriving DecidableEq, Repr

/-- The path an event touches. -/
def Event.path : Event → String
  | .fingerprintRead p => p
  | .contentRead p => p
  | .upsertDoc p => p
  | .deleteDoc p => p

/-- Loop body of `index_directory` (`indexer.py` lines 85–125), processing
one on-disk markdown file against the snapshot `existing_docs_by_path`
taken before the loop.  The source computes the checksum (one read of the
file's bytes) and then unconditionally reads the content (lines 87–94)
*before* branching on the snapshot lookup; both reads are traced.  The
upsert event is emitted when `ingest_document` reaches its SQL statement,
i.e. exactly when it succeeds; a failed ingest increments `errors` and
leaves the store as it was (lines 123–125). -/
def process_file (env : Env) (snapshot : List MarkdownDocument) (now : Nat)
    (acc : Stats × Store × List Event) (pc : String × String) :
    Stats × Store × List Event :=
  let stats := acc.1
  let s := acc.2.1
  let tr := acc.2.2 ++ [Event.fingerprintRead pc.1, Event.contentRead pc.1]
  let checksum := env.hash pc.2
  match snapshot.find? (fun d => d.file_path == pc.1) with
  | none =>
      match ingest_document env now { file_path := pc.1, checksum := checksum, content := pc.2 } s with
      | (Except.ok _, s2) => ({ stats with indexed := stats.indexed + 1 }, s2, tr ++ [Event.upsertDoc pc.1])
      | (Except.error _, s2) => ({ stats with errors := stats.errors + 1 }, s2, tr)
  | some d =>
      if d.checksum = checksum then
        ({ stats with skipped := stats.skipped + 1 }, s, tr)
      else
        match ingest_document env now { d with checksum := checksum, content := pc.2 } s with
        | (Except.ok _, s2) => ({ stats with updated := stats.updated + 1 }, s2, tr ++ [Event.upsertDoc pc.1])
        | (Except.error _, s2) => ({ stats with errors := stats.errors + 1 }, s2, tr)

/-- Deletion pass of `index_directory` (`indexer.py` lines 127–133): every
snapshot document whose path is no longer on disk is deleted and counted. -/
def delete_pass (snapshot : List MarkdownDocument) (disk_paths : List String)
    (acc : Stats × Store × List Event) : Stats × Store × List Event :=
  snapshot.foldl
    (fun a d =>
      if d.file_path ∈ disk_paths then a
      else
        ({ a.1 with deleted := a.1.deleted + 1 },
          delete_row a.2.1 d.file_path,
          a.2.2 ++ [Event.deleteDoc d.file_path]))
    acc

/-- `index_directory` (`indexer.py` lines 54–140), full reconciliation:
scan, snapshot the store via an unbounded `get_all_documents`, process every
on-disk markdown file, then run the deletion pass over the snapshot. -/
def index_directory (env : Env) (fs : List (String × String)) (now : Nat)
    (s : Store) : Stats × Store × List Event :=
  let markdown_files := find_markdown_files fs
  let existing_docs := get_all_documents s none 0
  let after_loop := markdown_files.foldl (process_file env existing_docs now) (Stats.zero, s, [])
  delete_pass existing_docs (markdown_files.map Prod.fst) after_loop

/-- `index_file` (`indexer.py` lines 143–189), the single-file resync:
existence check, extension check, checksum, content read, store lookup,
then ingest of either a fresh document or the updated existing one. -/
def index_file (env : Env) (fs : List (String × String)) (now : Nat)
    (file_path : String) (s : Store) : Except String MarkdownDocument × Store :=
  match fs.lookup file_path with
  | none => (Except.error ("File does not exist: " ++ file_path), s)
  | some content =>
      if strLower (path_suffix file_path) = ".md" then
        let checksum := env.hash content
        let doc :=
          match get_document_by_path s file_path with
          | none => ({ file_path := file_path, checksum := checksum, content := content } : MarkdownDocument)
          | some d => { d with checksum := checksum, content := content }
        ingest_document env now doc s
      else
        (Except.error ("File is not a markdown file: " ++ file_path), s)

/-- `create_file` (`indexer.py` lines 192–231): extension validation first
(before any filesystem or store access), then sanitization, the
already-exists check, the disk write, and the single-file resync.  The
result triple is (outcome, post-filesystem, post-store). -/
def create_file (env : Env) (fs : List (String × String)) (now : Nat)
    (filename content : String) (s : Store) :
    Except String MarkdownDocument × List (String × String) × Store :=
  if strEndsWith (strLower filename) ".md" then
    let filename_clean := sanitize_filename filename
    let file_path := env.markdownDir ++ "/" ++ filename_clean
    if (fs.lookup file_path).isSome then
      (Except.error ("File already exists: " ++ filename_clean), fs, s)
    else
      let fs2 := fs ++ [(file_path, content)]
      let r := index_file env fs2 now file_path s
      (r.1, fs2, r.2)
  else
    (Except.error ("Filename must end with .md: " ++ filename), fs, s)

/-- `list_files` (`indexer.py` lines 316–323): delegates to the database
module's `list_filenames`. -/
def list_files (s : Store) : List String := list_filenames s

/-! ## Watcher (`src/md_kb/watcher.py`) -/

/-- The three event kinds delivered by `watchfiles` (`watcher.py` line 9). -/
inductive Change where
  | added
  | modified
  | deleted
deriving DecidableEq, Repr

/-- The per-event body of `watch_directory` (`watcher.py` lines 28–52):
non-markdown paths are skipped; a delete event is only logged — the
`continue` at line 45 means `index_file` is never called and the store is
untouched; add/modify events run `index_file`, whose exceptions are caught
and logged, so the resulting store is returned in every case. -/
def watch_step (env : Env) (fs : List (String × String)) (now : Nat)
    (ev : Change × String) (s : Store) : Store :=
  if strLower (path_suffix ev.2) = ".md" then
    match ev.1 with
    | Change.deleted => s
    | _ => (index_file env fs now ev.2 s).2
  else s

/-! ## JSON-RPC search handler (`src/md_kb/jsonrpc_server.py`) -/

/-- One element of the result list built by `_handle_search`
(`jsonrpc_server.py` lines 188–197). -/
structure SearchResultEntry where
  file_path : String
  content : String
  distance : Rat
  indexed_at : Option Nat
  updated_at : Option Nat
deriving DecidableEq, Repr

/-- The attribute access `doc.distance` performed by `_handle_search`
(`jsonrpc_server.py` line 193).  The `MarkdownDocument` dataclass declares
no `distance` field and `_row_to_document` never sets one, so in Python
this access raises `AttributeError`; the model renders the dynamic
attribute lookup as an `Option` that is always `none`. -/
def doc_distance_attr (_ : MarkdownDocument) : Option Rat := none

/-- `_handle_search` (`jsonrpc_server.py` lines 164–199): parameter
validation, the call to `search_documents` (no offset is passed), then the
per-document result record, which reads `doc.distance`. -/
def handle_search (env : Env) (query : String) (limit : Option Nat)
    (max_distance : Rat) (s : Store) : Except String (List SearchResultEntry) :=
  if query = "" then
    Except.error "Invalid params: query parameter is required and must be a string"
  else if max_distance < 0 ∨ 2 < max_distance then
    Except.error "Invalid params: max_distance must be a number between 0 and 2"
  else if (match limit with | some l => decide (l < 1) | none => false) = true then
    Except.error "Invalid params: limit must be a positive integer"
  else
    match search_documents env query limit 0 max_distance s with
    | Except.error e => Except.error e
    | Except.ok docs =>
        docs.mapM (fun doc =>
          match doc_distance_attr doc with
          | some d =>
              Except.ok
                ⟨doc.file_path, doc.content, d, doc.indexed_at, doc.updated_at⟩
          | none =>
              Except.error "AttributeError: MarkdownDocument object has no attribute distance")

/-! ## Basic lemmas: validation, ingestion, and row operations -/

/-- Validation succeeds exactly when the three required fields are nonempty. -/
theorem validate_eq_nil_iff (doc : MarkdownDocument) :
    doc.validate = [] ↔ doc.file_path ≠ "" ∧ doc.checksum ≠ "" ∧ doc.content ≠ "" := by
  unfold MarkdownDocument.validate
  by_cases h1 : doc.file_path = "" <;> by_cases h2 : doc.checksum = "" <;>
    by_cases h3 : doc.content = "" <;> simp [h1, h2, h3]

/-- The exact circumstances under which `ingest_document` raises: a
validation failure or an embedding failure.  Both depend only on the
document's fields and the environment, never on the store. -/
def ingest_blocked (env : Env) (doc : MarkdownDocument) : Prop :=
  doc.file_path = "" ∨ doc.checksum = "" ∨ doc.content = "" ∨ env.embed doc.content = none

/-- A blocked ingest raises and leaves the store untouched: the exception
is thrown before the SQL statement is reached. -/
theorem ingest_document_error_of_blocked (env : Env) (now : Nat)
    (doc : MarkdownDocument) (s : Store) (h : ingest_blocked env doc) :
    ∃ m, ingest_document env now doc s = (Except.error m, s) := by
  unfold ingest_document
  by_cases hv : doc.validate = []
  · have hf := (validate_eq_nil_iff doc).mp hv
    rcases h with h | h | h | h
    · exact absurd h hf.1
    · exact absurd h hf.2.1
    · exact absurd h hf.2.2
    · exact ⟨"Failed to generate embedding for document", by simp [hv, h]⟩
  · exact ⟨"Invalid document: " ++ String.intercalate ", " doc.validate, by simp [hv]⟩

/-- An unblocked ingest succeeds and performs exactly the upsert. -/
theorem ingest_document_ok_of_not_blocked (env : Env) (now : Nat)
    (doc : MarkdownDocument) (s : Store) (h : ¬ ingest_blocked env doc) :
    ∃ v doc2, env.embed doc.content = some v ∧
      ingest_document env now doc s =
        (Except.ok doc2, upsert_row s doc.file_path doc.checksum doc.content v now) := by
  unfold ingest_blocked at h
  push_neg at h
  obtain ⟨h1, h2, h3, h4⟩ := h
  have hv : doc.validate = [] := (validate_eq_nil_iff doc).mpr ⟨h1, h2, h3⟩
  obtain ⟨v, hvv⟩ := Option.ne_none_iff_exists.mp (by exact h4)
  refine ⟨v, { doc with id := (find_row
      (upsert_row s doc.file_path doc.checksum doc.content v now) doc.file_path).map Row.id },
    hvv.symm, ?_⟩
  simp [ingest_document, hv, ← hvv]

/-- Generic helper: filtering away only elements the search predicate
rejects does not change the result of `find?`. -/
theorem find?_filter_eq {α : Type} (l : List α) (pr keep : α → Bool)
    (h : ∀ a, pr a = true → keep a = true) :
    (l.filter keep).find? pr = l.find? pr := by
  induction l with
  | nil => rfl
  | cons a t ih =>
      by_cases hp : pr a = true
      · rw [List.filter_cons, h a hp]
        simp [List.find?, hp]
      · rw [List.filter_cons]
        cases hk : keep a
        · simpa [List.find?, hp, Bool.not_eq_true] using ih
        · simp only [List.find?_cons, hp]
          simpa [List.find?, hp, Bool.not_eq_true] using ih

/-- Generic helper: on lists whose keys are duplicate-free, `find?` by key
is invariant under permutation. -/
theorem find?_key_eq_of_perm {α : Type} (key : α → String) {l l2 : List α}
    (hp : l.Perm l2) (hnd : (l.map key).Nodup) (p : String) :
    l.find? (fun a => key a == p) = l2.find? (fun a => key a == p) := by
  cases h1 : l.find? (fun a => key a == p) with
  | none =>
      rw [List.find?_eq_none] at h1
      symm
      rw [List.find?_eq_none]
      intro x hx
      exact h1 x (hp.mem_iff.mpr hx)
  | some a =>
      have ha := List.mem_of_find?_eq_some h1
      have hpa := List.find?_some h1
      cases h2 : l2.find? (fun a => key a == p) with
      | none =>
          rw [List.find?_eq_none] at h2
          exact absurd hpa (h2 a (hp.mem_iff.mp ha))
      | some b =>
          have hb : b ∈ l := hp.mem_iff.mpr (List.mem_of_find?_eq_some h2)
          have hpb := List.find?_some h2
          have hk : key a = key b := by
            have hpa2 : key a = p := by simpa using hpa
            have hpb2 : key b = p := by simpa using hpb
            rw [hpa2, hpb2]
          have hab : a = b := List.inj_on_of_nodup_map hnd ha hb hk
          rw [hab]

/-- Updating a path's row leaves `find_row` at that path pointing at a row
carrying the new checksum, content and embedding. -/
theorem find_row_upsert_self (s : Store) (p ck c : String) (emb : List Rat) (now : Nat) :
    ∃ r, find_row (upsert_row s p ck c emb now) p = some r ∧
      r.file_path = p ∧ r.checksum = ck ∧ r.content = c ∧ r.embedding = some emb := by
  unfold upsert_row
  cases hf : find_row s p with
  | none =>
      refine ⟨⟨s.nextId, p, ck, c, some emb, now, now⟩, ?_, rfl, rfl, rfl, rfl⟩
      have hf2 : s.rows.find? (fun r : Row => r.file_path == p) = none := hf
      unfold find_row
      rw [List.find?_append, hf2]
      simp [List.find?]
  | some r0 =>
      have hf2 : s.rows.find? (fun r : Row => r.file_path == p) = some r0 := hf
      have hr0 := List.find?_some hf2
      refine ⟨{ r0 with checksum := ck, content := c, embedding := some emb, updated_at := now },
        ?_, by simpa using hr0, rfl, rfl, rfl⟩
      unfold find_row
      rw [List.find?_map]
      have hcomp : ((fun r : Row => r.file_path == p) ∘
          (fun r : Row => if r.file_path == p then
            { r with checksum := ck, content := c, embedding := some emb, updated_at := now }
          else r)) = (fun r : Row => r.file_path == p) := by
        funext r
        by_cases hr : (r.file_path == p) = true
        · rw [Function.comp_apply, if_pos hr]
        · rw [Function.comp_apply, if_neg hr]
      rw [hcomp, hf2]
      simp [hr0]
      intro hne
      exact absurd (by simpa using hr0) hne

/-- Upserting one path does not move `find_row` at any other path. -/
theorem find_row_upsert_other (s : Store) (p q ck c : String) (emb : List Rat) (now : Nat)
    (h : q ≠ p) : find_row (upsert_row s p ck c emb now) q = find_row s q := by
  unfold upsert_row
  cases hf : find_row s p with
  | none =>
      unfold find_row
      rw [List.find?_append]
      have hone : List.find? (fun r : Row => r.file_path == q)
          [⟨s.nextId, p, ck, c, some emb, now, now⟩] = none := by
        rw [List.find?_eq_none]
        intro r hr
        have : r = (⟨s.nextId, p, ck, c, some emb, now, now⟩ : Row) := by simpa using hr
        subst this
        simp [h.symm]
      rw [hone]
      cases s.rows.find? (fun r : Row => r.file_path == q) <;> rfl
  | some r0 =>
      unfold find_row
      rw [List.find?_map]
      have hcomp : ((fun r : Row => r.file_path == q) ∘
          (fun r : Row => if r.file_path == p then
            { r with checksum := ck, content := c, embedding := some emb, updated_at := now }
          else r)) = (fun r : Row => r.file_path == q) := by
        funext r
        by_cases hr : (r.file_path == p) = true
        · rw [Function.comp_apply, if_pos hr]
        · rw [Function.comp_apply, if_neg hr]
      rw [hcomp]
      cases hq : s.rows.find? (fun r : Row => r.file_path == q) with
      | none => rfl
      | some r1 =>
          have hr1 := List.find?_some hq
          have hnp : ¬ (r1.file_path == p) = true := by
            have : r1.file_path = q := by simpa using hr1
            simp [this, h]
          simp [hnp]
          intro he
          exact absurd he (by simpa using hnp)

/-- Deleting one path does not move `find_row` at any other path. -/
theorem find_row_delete_other (s : Store) (p q : String) (h : q ≠ p) :
    find_row (delete_row s p) q = find_row s q := by
  unfold delete_row find_row
  exact find?_filter_eq s.rows _ _ (by
    intro r hr
    have : r.file_path = q := by simpa using hr
    simp [this, h])

/-- After deleting a path no row at that path remains. -/
theorem find_row_delete_self (s : Store) (p : String) :
    find_row (delete_row s p) p = none := by
  unfold delete_row find_row
  rw [List.find?_eq_none]
  intro r hr
  have := (List.mem_filter.mp hr).2
  simp only [ne_eq, decide_eq_true_eq] at this
  simpa using this

/-- Upserts preserve uniqueness of the `file_path` key. -/
theorem pathsNodup_upsert (s : Store) (p ck c : String) (emb : List Rat) (now : Nat)
    (h : pathsNodup s) : pathsNodup (upsert_row s p ck c emb now) := by
  unfold upsert_row
  cases hf : find_row s p with
  | none =>
      unfold pathsNodup at h ⊢
      simp only [List.map_append, List.map_cons, List.map_nil]
      rw [List.nodup_append]
      refine ⟨h, List.nodup_singleton p, ?_⟩
      intro x hx hx2
      have hxp : x = p := by simpa using hx2
      obtain ⟨r, hr, hrp⟩ := List.mem_map.mp hx
      have hf2 : s.rows.find? (fun r : Row => r.file_path == p) = none := hf
      rw [List.find?_eq_none] at hf2
      exact hf2 r hr (by simp [hrp, hxp])
  | some r0 =>
      unfold pathsNodup at h ⊢
      have hpaths : List.map Row.file_path (s.rows.map (fun r : Row =>
          if r.file_path == p then
            { r with checksum := ck, content := c, embedding := some emb, updated_at := now }
          else r)) = List.map Row.file_path s.rows := by
        rw [List.map_map]
        refine List.map_congr_left ?_
        intro r _
        by_cases hr : (r.file_path == p) = true
        · rw [Function.comp_apply, if_pos hr]
        · rw [Function.comp_apply, if_neg hr]
      show (List.map Row.file_path _).Nodup
      rw [hpaths]
      exact h

/-- Deletions preserve uniqueness of the `file_path` key. -/
theorem pathsNodup_delete (s : Store) (p : String) (h : pathsNodup s) :
    pathsNodup (delete_row s p) := by
  unfold pathsNodup at h ⊢
  exact List.Nodup.sublist (List.Sublist.map Row.file_path (List.filter_sublist s.rows)) h

/-- On a store with unique paths, looking a path up in the unbounded
`get_all_documents` snapshot is the same as looking it up in the table. -/
theorem snapshot_find?_eq (s : Store) (p : String) (h : pathsNodup s) :
    (get_all_documents s none 0).find? (fun d => d.file_path == p) =
      (find_row s p).map row_to_document := by
  unfold get_all_documents
  simp only [List.drop_zero]
  rw [List.find?_map]
  have hcomp : ((fun d : MarkdownDocument => d.file_path == p) ∘ row_to_document) =
      (fun r : Row => r.file_path == p) := rfl
  rw [hcomp]
  have hp := List.perm_insertionSort indexedAtDesc s.rows
  have hnd2 : ((List.insertionSort indexedAtDesc s.rows).map Row.file_path).Nodup :=
    ((hp.map Row.file_path).nodup_iff).mpr h
  exact congrArg (Option.map row_to_document) (find?_key_eq_of_perm Row.file_path hp hnd2 p)

/-! ## Lemmas about path splitting, for the filename listing -/

/-- No piece produced by `split_chars` contains the separator. -/
theorem split_chars_sep_not_mem (sep : Char) (cs : List Char) :
    ∀ piece ∈ split_chars sep cs, sep ∉ piece := by
  induction cs with
  | nil =>
      intro piece hp
      have : piece = [] := by simpa [split_chars] using hp
      simp [this]
  | cons c cs ih =>
      intro piece hp
      unfold split_chars at hp
      by_cases hc : c = sep
      · rw [if_pos hc] at hp
        rcases List.mem_cons.mp hp with h | h
        · simp [h]
        · exact ih piece h
      · rw [if_neg hc] at hp
        cases hrest : split_chars sep cs with
        | nil =>
            rw [hrest] at hp
            have hpc : piece = [c] := by simpa using hp
            subst hpc
            intro hmem
            have hsc : sep = c := by simpa using hmem
            exact hc hsc.symm
        | cons hh tt =>
            rw [hrest] at hp
            rcases List.mem_cons.mp hp with h | h
            · subst h
              intro hmem
              rcases List.mem_cons.mp hmem with h2 | h2
              · exact hc h2.symm
              · exact ih hh (by rw [hrest]; exact List.mem_cons_self hh tt) h2
            · exact ih piece (by rw [hrest]; exact List.mem_cons_of_mem hh h)

/-- Splitting never yields the empty list of pieces. -/
theorem split_chars_ne_nil (sep : Char) (cs : List Char) : split_chars sep cs ≠ [] := by
  cases cs with
  | nil => simp [split_chars]
  | cons c cs =>
      unfold split_chars
      by_cases hc : c = sep
      · simp [hc]
      · rw [if_neg hc]
        cases split_chars sep cs <;> simp

/-- A base name never contains a path separator. -/
theorem base_name_no_slash (p : String) : '/' ∉ (base_name p).data := by
  unfold base_name
  show '/' ∉ (split_chars '/' p.data).getLastD []
  have hmem := List.getLastD_mem_cons (split_chars '/' p.data) []
  rcases List.mem_cons.mp hmem with h | h
  · rw [h]; simp
  · exact split_chars_sep_not_mem '/' p.data _ h

/-! ## Concrete instances used by witnesses and counterexamples -/

/-- An environment whose embedding client always fails. -/
def envNoEmbed : Env := ⟨fun _ => none, fun c => c, fun _ _ => 0, "/kb"⟩

/-- An environment whose embedding client always succeeds with a fixed
vector and whose fingerprints are the content itself. -/
def envId : Env := ⟨fun _ => some [1], fun c => c, fun _ _ => 0, "/kb"⟩

/-- An environment for the search scenario: one known query embeds, the
distance is discrete (0 on equal vectors, 2 otherwise). -/
def envCx : Env :=
  ⟨fun q => if q = "python" then some [1] else none, fun c => c,
    fun a b => if a = b then 0 else 2, "/kb"⟩

/-- A store holding a single already-ingested document. -/
def storeOne : Store := ⟨[⟨1, "/kb/a.md", "hello", "hello", some [1], 0, 0⟩], 2⟩

/-- The single row of the search scenario, within threshold of the query. -/
def rowCx : Row := ⟨1, "/kb/doc.md", "content", "content", some [1], 3, 4⟩

/-- The store of the search scenario. -/
def storeCx : Store := ⟨[rowCx], 2⟩

/-- The empty store. -/
def emptyStore : Store := ⟨[], 1⟩

/-- A syntactically valid document used to exercise ingestion. -/
def docW : MarkdownDocument := { file_path := "/kb/a.md", checksum := "ck", content := "hello" }

/-! ## Claim C1 — search behaviour when the query embedding fails -/

/-- Claim C1 as stated is false: when the embedding client cannot embed the
query, `search_documents` does not fail with an error — it returns
successfully with an empty result list (`database.py` lines 287–289), which
is exactly what the claim says never happens.  Concretely, with a failing
embedder and a nonempty store the call returns `ok []` and is not equal to
any error. -/
theorem search_embed_failure_returns_empty_cex :
    envNoEmbed.embed "query" = none ∧
      search_documents envNoEmbed "query" none 0 1 storeOne = Except.ok [] ∧
      ∀ m, search_documents envNoEmbed "query" none 0 1 storeOne ≠ Except.error m := by
  refine ⟨rfl, rfl, ?_⟩
  intro m h
  exact Except.noConfusion h

/-- Claim C1 amended: for every environment, query, pagination and store,
if the embedding client cannot produce an embedding for the query then the
search returns successfully with the empty result list — the failure is
logged and swallowed by the source, so the caller cannot distinguish it
from a search with zero matches. -/
theorem search_documents_embed_failure_ok_empty (env : Env) (query : String)
    (limit : Option Nat) (offset : Nat) (max_distance : Rat) (s : Store)
    (h : env.embed query = none) :
    search_documents env query limit offset max_distance s = Except.ok [] := by
  unfold search_documents
  rw [h]

/-- Witness for the amended C1 at a concrete failing embedder and store. -/
theorem search_documents_embed_failure_ok_empty_witness :
    envNoEmbed.embed "q" = none ∧
      search_documents envNoEmbed "q" none 0 1 storeOne = Except.ok [] :=
  ⟨rfl, search_documents_embed_failure_ok_empty envNoEmbed "q" none 0 1 storeOne rfl⟩

/-! ## Claim C2 — listFilenames returns bare filenames -/

/-- Claim C2: `list_files` (whose database half `list_filenames` is
modelled from the spec, the definition being absent from the source tree)
returns one entry per indexed Document — one per table row — the entry for
each row being the last path component of that row's `file_path`, and no
entry contains a directory separator. -/
theorem list_files_bare_filenames (s : Store) :
    (list_files s).length = get_document_count s ∧
      (∀ r ∈ s.rows, base_name r.file_path ∈ list_files s) ∧
      ∀ n ∈ list_files s, '/' ∉ n.data := by
  refine ⟨by simp [list_files, list_filenames, get_document_count], ?_, ?_⟩
  · intro r hr
    exact List.mem_map.mpr ⟨r, hr, rfl⟩
  · intro n hn
    obtain ⟨r, _, hrn⟩ := List.mem_map.mp hn
    rw [← hrn]
    exact base_name_no_slash r.file_path

/-! ## Claim C3 — search results and their distance -/

/-- Claim C3 fails on the code (code bug): with one document whose
embedding is within the threshold, `search_documents` correctly selects
and orders it, but the returned `MarkdownDocument` carries no distance —
`_row_to_document` discards the SQL `distance` column and the dataclass has
no such field — so the JSON-RPC front-end `_handle_search`, which reads
`doc.distance` to build its response, fails with an attribute error instead
of returning the document with its computed distance. -/
theorem search_result_distance_dropped_cex :
    search_documents envCx "python" none 0 1 storeCx = Except.ok [row_to_document rowCx] ∧
      doc_distance_attr (row_to_document rowCx) = none ∧
      handle_search envCx "python" none 1 storeCx =
        Except.error "AttributeError: MarkdownDocument object has no attribute distance" :=
  ⟨rfl, rfl, rfl⟩

/-! ## Claim C7 — upsert atomicity on embedding failure -/

/-- Claim C7: upsert is atomic with respect to embedding failure — when the
embedding client returns no vector for the document's content,
`ingest_document` raises and the resulting store is exactly the prior
store, so the prior record (or absence of one) is retained and no document
without a successfully generated embedding is ever persisted. -/
theorem ingest_document_embed_failure_atomic (env : Env) (now : Nat)
    (doc : MarkdownDocument) (s : Store) (h : env.embed doc.content = none) :
    (∃ m, (ingest_document env now doc s).1 = Except.error m) ∧
      (ingest_document env now doc s).2 = s := by
  obtain ⟨m, hm⟩ := ingest_document_error_of_blocked env now doc s (Or.inr (Or.inr (Or.inr h)))
  exact ⟨⟨m, by rw [hm]⟩, by rw [hm]⟩

/-- Witness for C7 at a concrete document, store and failing embedder. -/
theorem ingest_document_embed_failure_atomic_witness :
    (∃ m, (ingest_document envNoEmbed 7 docW storeOne).1 = Except.error m) ∧
      (ingest_document envNoEmbed 7 docW storeOne).2 = storeOne :=
  ingest_document_embed_failure_atomic envNoEmbed 7 docW storeOne rfl

/-! ## Claim C9 — createDocument validation -/

/-- Claim C9: `create_file` checks the filename extension before touching
anything, so a filename that does not end in the markdown extension
(case-insensitively) yields a `ValueError` while the filesystem and the
store are returned exactly as given — no file write, no store change. -/
theorem create_file_bad_extension_no_side_effect (env : Env)
    (fs : List (String × String)) (now : Nat) (filename content : String) (s : Store)
    (h : strEndsWith (strLower filename) ".md" = false) :
    create_file env fs now filename content s =
      (Except.error ("Filename must end with .md: " ++ filename), fs, s) := by
  simp [create_file, h]

/-- Witness for C9 on the spec's own example, the filename with a wrong
extension. -/
theorem create_file_bad_extension_no_side_effect_witness :
    create_file envNoEmbed [] 0 "note.txt" "hi" emptyStore =
      (Except.error ("Filename must end with .md: " ++ "note.txt"), [], emptyStore) :=
  create_file_bad_extension_no_side_effect envNoEmbed [] 0 "note.txt" "hi" emptyStore (by decide)

/-! ## Claim C6 — listAll ordering -/

/-- Lexicographic comparison of character lists; the path comparison the
spec's tie-break would use. -/
def charsLe : List Char → List Char → Bool
  | [], _ => true
  | _ :: _, [] => false
  | a :: as, b :: bs => if a = b then charsLe as bs else decide (a < b)

/-- The ordering claimed by the spec for `listAll`: `indexed_at` descending
with ties broken by `path` ascending.  Stated from the spec wording, for
comparison with what `get_all_documents` actually returns. -/
def specListOrder (d1 d2 : MarkdownDocument) : Prop :=
  d2.indexed_at.getD 0 < d1.indexed_at.getD 0 ∨
    (d1.indexed_at = d2.indexed_at ∧ charsLe d1.file_path.data d2.file_path.data = true)

instance : DecidableRel specListOrder := fun d1 d2 => by
  unfold specListOrder
  exact inferInstance

/-- Two rows sharing one `indexed_at` tick, stored in path-descending
insertion order. -/
def rowTieB : Row := ⟨1, "/kb/b.md", "cb", "B", some [1], 5, 5⟩

/-- The second row of the tie scenario. -/
def rowTieA : Row := ⟨2, "/kb/a.md", "ca", "A", some [1], 5, 5⟩

/-- The store of the tie scenario. -/
def storeTies : Store := ⟨[rowTieB, rowTieA], 3⟩

/-- Claim C6 as stated is false: the listing query orders by `indexed_at`
descending only — it names no secondary sort key (`database.py` line 222) —
so two documents with colliding timestamps come back in an engine-chosen
order, here table order, which is path-descending: the claimed
path-ascending tie-break does not hold. -/
theorem list_ordering_tie_break_cex :
    get_all_documents storeTies none 0 = [row_to_document rowTieB, row_to_document rowTieA] ∧
      (row_to_document rowTieB).indexed_at = (row_to_document rowTieA).indexed_at ∧
      ¬ List.Pairwise specListOrder (get_all_documents storeTies none 0) := by
  refine ⟨rfl, rfl, ?_⟩
  decide

/-- Claim C6 amended: `get_all_documents` returns documents ordered by
`indexed_at` descending; the order of documents with equal timestamps is
not specified (no secondary key exists in the query).  Every returned
document converts a table row, and the limit/offset parameters paginate the
full ordering. -/
theorem get_all_documents_ordering_amended (s : Store) (limit : Option Nat) (offset : Nat) :
    List.Pairwise (fun d1 d2 : MarkdownDocument =>
        d2.indexed_at.getD 0 ≤ d1.indexed_at.getD 0) (get_all_documents s limit offset) ∧
      (∀ d ∈ get_all_documents s limit offset, ∃ r ∈ s.rows, d = row_to_document r) ∧
      get_all_documents s limit offset =
        (match limit with
          | some l => ((get_all_documents s none 0).drop offset).take l
          | none => (get_all_documents s none 0).drop offset) := by
  have hsorted : List.Pairwise indexedAtDesc (List.insertionSort indexedAtDesc s.rows) :=
    List.sorted_insertionSort indexedAtDesc s.rows
  have hpagesub : ∀ l0 : Option Nat,
      (match l0 with
        | some l => ((List.insertionSort indexedAtDesc s.rows).drop offset).take l
        | none => (List.insertionSort indexedAtDesc s.rows).drop offset).Sublist
        (List.insertionSort indexedAtDesc s.rows) := by
    intro l0
    cases l0 with
    | none => exact List.drop_sublist offset _
    | some l =>
        exact ((List.take_sublist l _).trans (List.drop_sublist offset _))
  refine ⟨?_, ?_, ?_⟩
  · unfold get_all_documents
    cases limit with
    | none =>
        exact List.pairwise_map.mpr (List.Pairwise.sublist (hpagesub none) hsorted)
    | some l =>
        exact List.pairwise_map.mpr (List.Pairwise.sublist (hpagesub (some l)) hsorted)
  · intro d hd
    unfold get_all_documents at hd
    cases limit with
    | none =>
        obtain ⟨r, hr, hrd⟩ := List.mem_map.mp hd
        exact ⟨r, (List.perm_insertionSort indexedAtDesc s.rows).mem_iff.mp
          ((hpagesub none).mem hr), hrd.symm⟩
    | some l =>
        obtain ⟨r, hr, hrd⟩ := List.mem_map.mp hd
        exact ⟨r, (List.perm_insertionSort indexedAtDesc s.rows).mem_iff.mp
          ((hpagesub (some l)).mem hr), hrd.symm⟩
  · cases limit with
    | none =>
        unfold get_all_documents
        simp only [List.drop_zero]
        rw [List.map_drop]
    | some l =>
        unfold get_all_documents
        simp only [List.drop_zero]
        rw [List.map_take, List.map_drop]

/-! ## Claim C10 — empty content is rejected, never indexed -/

/-- Claim C10: an empty document fails validation, so `ingest_document`
raises the validation error without touching the store; consequently, in
the reconciliation loop an on-disk empty file lands in the `errors`
counter — never `indexed` (the spec's `created`) or `skipped` — provided no
stored checksum collides with the fingerprint of the empty content (the
spec's collision-resistance assumption on the fingerprinter). -/
theorem empty_content_never_persisted :
    (∀ (env : Env) (now : Nat) (doc : MarkdownDocument) (s : Store), doc.content = "" →
      (ingest_document env now doc s).1 =
          Except.error ("Invalid document: " ++ String.intercalate ", " doc.validate) ∧
        (ingest_document env now doc s).2 = s ∧ doc.validate ≠ []) ∧
    (∀ (env : Env) (snapshot : List MarkdownDocument) (now : Nat)
        (acc : Stats × Store × List Event) (p : String),
      (∀ d ∈ snapshot, d.file_path = p → d.checksum ≠ env.hash "") →
      process_file env snapshot now acc (p, "") =
        ({ acc.1 with errors := acc.1.errors + 1 }, acc.2.1,
          acc.2.2 ++ [Event.fingerprintRead p, Event.contentRead p])) := by
  have hval : ∀ doc : MarkdownDocument, doc.content = "" → doc.validate ≠ [] := by
    intro doc hc
    unfold MarkdownDocument.validate
    rw [hc]
    simp
  constructor
  · intro env now doc s hc
    have hne := hval doc hc
    refine ⟨?_, ?_, hne⟩ <;> simp [ingest_document, hne]
  · intro env snapshot now acc p h
    obtain ⟨st, s, tr⟩ := acc
    simp only [process_file]
    split
    next hfind =>
      have hblocked : ingest_blocked env
          { file_path := p, checksum := env.hash "", content := "" } :=
        Or.inr (Or.inr (Or.inl rfl))
      obtain ⟨m, hm⟩ := ingest_document_error_of_blocked env now
        { file_path := p, checksum := env.hash "", content := "" } s hblocked
      rw [hm]
    next d hfind =>
      have hdp : d.file_path = p := by simpa using List.find?_some hfind
      have hck : d.checksum ≠ env.hash "" := h d (List.mem_of_find?_eq_some hfind) hdp
      rw [if_neg hck]
      have hblocked : ingest_blocked env { d with checksum := env.hash "", content := "" } :=
        Or.inr (Or.inr (Or.inl rfl))
      obtain ⟨m, hm⟩ := ingest_document_error_of_blocked env now
        { d with checksum := env.hash "", content := "" } s hblocked
      rw [hm]

/-- A stale snapshot entry for the empty-file scenario: same path, a
checksum that cannot collide with the empty fingerprint. -/
def snapEmpty : List MarkdownDocument :=
  [{ file_path := "/kb/e.md", checksum := "c1", content := "old" }]

/-- The empty document of the C10 witness. -/
def docEmpty : MarkdownDocument := { file_path := "/kb/e.md", checksum := "ck", content := "" }

/-- Witness for C10: a concrete empty document is rejected by ingestion
with the store unchanged, and the reconciliation loop body counts a
concrete empty file as an error without upserting. -/
theorem empty_content_never_persisted_witness :
    ((ingest_document envId 3 docEmpty emptyStore).1 =
        Except.error ("Invalid document: " ++ String.intercalate ", " docEmpty.validate) ∧
      (ingest_document envId 3 docEmpty emptyStore).2 = emptyStore ∧
      docEmpty.validate ≠ []) ∧
      process_file envId snapEmpty 3 (Stats.zero, emptyStore, []) ("/kb/e.md", "") =
        ({ Stats.zero with errors := Stats.zero.errors + 1 }, emptyStore,
          [] ++ [Event.fingerprintRead "/kb/e.md", Event.contentRead "/kb/e.md"]) :=
  ⟨empty_content_never_persisted.1 envId 3 docEmpty emptyStore rfl,
    empty_content_never_persisted.2 envId snapEmpty 3 (Stats.zero, emptyStore, []) "/kb/e.md"
      (by decide)⟩

/-! ## Inversion lemmas for ingestion -/

/-- When ingestion reports an error the returned store is the input store. -/
theorem ingest_document_error_inv (env : Env) (now : Nat) (doc : MarkdownDocument)
    (s : Store) {m : String} {s2 : Store}
    (heq : ingest_document env now doc s = (Except.error m, s2)) : s2 = s := by
  by_cases hb : ingest_blocked env doc
  · obtain ⟨m1, hm⟩ := ingest_document_error_of_blocked env now doc s hb
    rw [hm] at heq
    injection heq with h1 h2
    exact h2.symm
  · obtain ⟨v, d2, hv, hm⟩ := ingest_document_ok_of_not_blocked env now doc s hb
    rw [hm] at heq
    injection heq with h1 h2
    exact Except.noConfusion h1

/-- When ingestion succeeds the returned store is exactly the upsert of the
document's fields. -/
theorem ingest_document_ok_inv (env : Env) (now : Nat) (doc : MarkdownDocument)
    (s : Store) {a : MarkdownDocument} {s2 : Store}
    (heq : ingest_document env now doc s = (Except.ok a, s2)) :
    ∃ v, env.embed doc.content = some v ∧
      s2 = upsert_row s doc.file_path doc.checksum doc.content v now := by
  by_cases hb : ingest_blocked env doc
  · obtain ⟨m1, hm⟩ := ingest_document_error_of_blocked env now doc s hb
    rw [hm] at heq
    injection heq with h1 h2
    exact Except.noConfusion h1
  · obtain ⟨v, d2, hv, hm⟩ := ingest_document_ok_of_not_blocked env now doc s hb
    rw [hm] at heq
    injection heq with h1 h2
    exact ⟨v, hv, h2.symm⟩

/-! ## Characterization of the reconciliation loop body -/

/-- The per-path failure condition of the reconciliation loop: validation
or embedding fails for the file at `p` with contents `c`, independently of
which branch constructs the document. -/
def ingest_fails (env : Env) (p c : String) : Prop :=
  p = "" ∨ env.hash c = "" ∨ c = "" ∨ env.embed c = none

/-- Skip branch: a snapshot hit with matching fingerprint increments only
`skipped`, leaves the store, and reads fingerprint and content. -/
theorem process_file_skip (env : Env) (snapshot : List MarkdownDocument) (now : Nat)
    (st : Stats) (s : Store) (tr : List Event) (p c : String) (d : MarkdownDocument)
    (hfind : snapshot.find? (fun x => x.file_path == p) = some d)
    (hck : d.checksum = env.hash c) :
    process_file env snapshot now (st, s, tr) (p, c) =
      ({ st with skipped := st.skipped + 1 }, s,
        tr ++ [Event.fingerprintRead p, Event.contentRead p]) := by
  simp only [process_file]
  split
  next h0 => rw [hfind] at h0; cases h0
  next d2 h0 =>
    rw [hfind] at h0
    cases h0
    rw [if_pos hck]

/-- New-file branch with a failing ingest: only `errors` is incremented,
the store is untouched, and no upsert event is emitted. -/
theorem process_file_new_error (env : Env) (snapshot : List MarkdownDocument) (now : Nat)
    (st : Stats) (s : Store) (tr : List Event) (p c : String)
    (hfind : snapshot.find? (fun x => x.file_path == p) = none)
    (hfail : ingest_fails env p c) :
    process_file env snapshot now (st, s, tr) (p, c) =
      ({ st with errors := st.errors + 1 }, s,
        tr ++ [Event.fingerprintRead p, Event.contentRead p]) := by
  simp only [process_file]
  split
  next h0 =>
    have hblocked : ingest_blocked env
        { file_path := p, checksum := env.hash c, content := c } := hfail
    obtain ⟨m, hm⟩ := ingest_document_error_of_blocked env now
      { file_path := p, checksum := env.hash c, content := c } s hblocked
    rw [hm]
  next d2 h0 => rw [hfind] at h0; cases h0

/-- New-file branch with a successful ingest: `indexed` is incremented and
the store receives the upsert. -/
theorem process_file_new_ok (env : Env) (snapshot : List MarkdownDocument) (now : Nat)
    (st : Stats) (s : Store) (tr : List Event) (p c : String)
    (hfind : snapshot.find? (fun x => x.file_path == p) = none)
    (hfail : ¬ ingest_fails env p c) :
    ∃ v, env.embed c = some v ∧
      process_file env snapshot now (st, s, tr) (p, c) =
        ({ st with indexed := st.indexed + 1 }, upsert_row s p (env.hash c) c v now,
          tr ++ [Event.fingerprintRead p, Event.contentRead p] ++ [Event.upsertDoc p]) := by
  have hnb : ¬ ingest_blocked env { file_path := p, checksum := env.hash c, content := c } := hfail
  obtain ⟨v, d2, hv, hm⟩ := ingest_document_ok_of_not_blocked env now
    { file_path := p, checksum := env.hash c, content := c } s hnb
  refine ⟨v, hv, ?_⟩
  simp only [process_file]
  split
  next h0 => rw [hm]
  next d2 h0 => rw [hfind] at h0; cases h0

/-- Changed-file branch with a failing ingest: only `errors` is
incremented and the store is untouched. -/
theorem process_file_update_error (env : Env) (snapshot : List MarkdownDocument) (now : Nat)
    (st : Stats) (s : Store) (tr : List Event) (p c : String) (d : MarkdownDocument)
    (hfind : snapshot.find? (fun x => x.file_path == p) = some d)
    (hck : d.checksum ≠ env.hash c)
    (hfail : ingest_fails env p c) :
    process_file env snapshot now (st, s, tr) (p, c) =
      ({ st with errors := st.errors + 1 }, s,
        tr ++ [Event.fingerprintRead p, Event.contentRead p]) := by
  have hdp : d.file_path = p := by simpa using List.find?_some hfind
  simp only [process_file]
  split
  next h0 => rw [hfind] at h0; cases h0
  next d2 h0 =>
    rw [hfind] at h0
    cases h0
    rw [if_neg hck]
    have hblocked : ingest_blocked env { d with checksum := env.hash c, content := c } := by
      unfold ingest_blocked
      show d.file_path = "" ∨ env.hash c = "" ∨ c = "" ∨ env.embed c = none
      rw [hdp]
      exact hfail
    obtain ⟨m, hm⟩ := ingest_document_error_of_blocked env now
      { d with checksum := env.hash c, content := c } s hblocked
    rw [hm]

/-- Changed-file branch with a successful ingest: `updated` is incremented
and the store receives the upsert at the document's path. -/
theorem process_file_update_ok (env : Env) (snapshot : List MarkdownDocument) (now : Nat)
    (st : Stats) (s : Store) (tr : List Event) (p c : String) (d : MarkdownDocument)
    (hfind : snapshot.find? (fun x => x.file_path == p) = some d)
    (hck : d.checksum ≠ env.hash c)
    (hfail : ¬ ingest_fails env p c) :
    ∃ v, env.embed c = some v ∧
      process_file env snapshot now (st, s, tr) (p, c) =
        ({ st with updated := st.updated + 1 }, upsert_row s p (env.hash c) c v now,
          tr ++ [Event.fingerprintRead p, Event.contentRead p] ++ [Event.upsertDoc p]) := by
  have hdp : d.file_path = p := by simpa using List.find?_some hfind
  have hnb : ¬ ingest_blocked env { d with checksum := env.hash c, content := c } := by
    unfold ingest_blocked
    show ¬ (d.file_path = "" ∨ env.hash c = "" ∨ c = "" ∨ env.embed c = none)
    rw [hdp]
    exact hfail
  obtain ⟨v, d2, hv, hm⟩ := ingest_document_ok_of_not_blocked env now
    { d with checksum := env.hash c, content := c } s hnb
  refine ⟨v, hv, ?_⟩
  simp only [process_file]
  split
  next h0 => rw [hfind] at h0; cases h0
  next d3 h0 =>
    rw [hfind] at h0
    cases h0
    rw [if_neg hck, hm]
    rw [show ({ d with checksum := env.hash c, content := c } : MarkdownDocument).file_path = p from hdp]

/-! ## Frame lemmas for the loop body and the loop -/

/-- Each row of an upsert result carries either an old path or the upserted
path. -/
theorem upsert_row_paths (s : Store) (p ck c : String) (emb : List Rat) (now : Nat) :
    ∀ r2 ∈ (upsert_row s p ck c emb now).rows,
      r2.file_path ∈ s.rows.map Row.file_path ∨ r2.file_path = p := by
  unfold upsert_row
  cases hf : find_row s p with
  | none =>
      intro r2 hr2
      rcases List.mem_append.mp hr2 with h | h
      · exact Or.inl (List.mem_map.mpr ⟨r2, h, rfl⟩)
      · have : r2 = (⟨s.nextId, p, ck, c, some emb, now, now⟩ : Row) := by simpa using h
        subst this
        exact Or.inr rfl
  | some r0 =>
      intro r2 hr2
      obtain ⟨r, hr, hrr⟩ := List.mem_map.mp hr2
      subst hrr
      left
      refine List.mem_map.mpr ⟨r, hr, ?_⟩
      by_cases hrp : (r.file_path == p) = true
      · rw [if_pos hrp]
      · rw [if_neg hrp]

/-- The loop body, in every case: it extends the trace with events about
its own path only, either leaves the store alone or upserts its own path,
never touches `deleted`, and never decreases `skipped`. -/
theorem process_file_shape (env : Env) (snapshot : List MarkdownDocument) (now : Nat)
    (st : Stats) (s : Store) (tr : List Event) (p c : String) :
    ∃ st2 s2 evs, process_file env snapshot now (st, s, tr) (p, c) = (st2, s2, tr ++ evs) ∧
      (s2 = s ∨ ∃ v, s2 = upsert_row s p (env.hash c) c v now) ∧
      (∀ e ∈ evs, e.path = p) ∧
      st2.deleted = st.deleted ∧ st.skipped ≤ st2.skipped := by
  have hpath2 : ∀ e ∈ [Event.fingerprintRead p, Event.contentRead p], Event.path e = p := by
    intro e he
    simp only [List.mem_cons, List.not_mem_nil, or_false] at he
    rcases he with rfl | rfl <;> rfl
  have hpath3 : ∀ e ∈ [Event.fingerprintRead p, Event.contentRead p, Event.upsertDoc p],
      Event.path e = p := by
    intro e he
    simp only [List.mem_cons, List.not_mem_nil, or_false] at he
    rcases he with rfl | rfl | rfl <;> rfl
  cases hfind : snapshot.find? (fun x => x.file_path == p) with
  | none =>
      by_cases hfail : ingest_fails env p c
      · rw [process_file_new_error env snapshot now st s tr p c hfind hfail]
        exact ⟨{ st with errors := st.errors + 1 }, s,
          [Event.fingerprintRead p, Event.contentRead p], rfl, Or.inl rfl, hpath2,
          rfl, le_refl _⟩
      · obtain ⟨v, hv, heq⟩ := process_file_new_ok env snapshot now st s tr p c hfind hfail
        rw [heq]
        refine ⟨{ st with indexed := st.indexed + 1 }, upsert_row s p (env.hash c) c v now,
          [Event.fingerprintRead p, Event.contentRead p, Event.upsertDoc p],
          ?_, Or.inr ⟨v, rfl⟩, hpath3, rfl, le_refl _⟩
        rw [List.append_assoc]
        rfl
  | some d =>
      by_cases hck : d.checksum = env.hash c
      · rw [process_file_skip env snapshot now st s tr p c d hfind hck]
        exact ⟨{ st with skipped := st.skipped + 1 }, s,
          [Event.fingerprintRead p, Event.contentRead p], rfl, Or.inl rfl, hpath2,
          rfl, Nat.le_succ _⟩
      · by_cases hfail : ingest_fails env p c
        · rw [process_file_update_error env snapshot now st s tr p c d hfind hck hfail]
          exact ⟨{ st with errors := st.errors + 1 }, s,
            [Event.fingerprintRead p, Event.contentRead p], rfl, Or.inl rfl, hpath2,
            rfl, le_refl _⟩
        · obtain ⟨v, hv, heq⟩ :=
            process_file_update_ok env snapshot now st s tr p c d hfind hck hfail
          rw [heq]
          refine ⟨{ st with updated := st.updated + 1 }, upsert_row s p (env.hash c) c v now,
            [Event.fingerprintRead p, Event.contentRead p, Event.upsertDoc p],
            ?_, Or.inr ⟨v, rfl⟩, hpath3, rfl, le_refl _⟩
          rw [List.append_assoc]
          rfl

/-- The reconciliation loop, in every case: its trace extension mentions
only processed paths, rows at unprocessed paths are untouched, every result
row carries an old or a processed path, `deleted` is untouched, `skipped`
never decreases, and path uniqueness is preserved. -/
theorem foldl_process_file_shape (env : Env) (snapshot : List MarkdownDocument) (now : Nat) :
    ∀ (l : List (String × String)) (st : Stats) (s : Store) (tr : List Event),
    ∃ st2 s2 evs,
      l.foldl (process_file env snapshot now) (st, s, tr) = (st2, s2, tr ++ evs) ∧
      (∀ e ∈ evs, e.path ∈ l.map Prod.fst) ∧
      (∀ q, q ∉ l.map Prod.fst → find_row s2 q = find_row s q) ∧
      (∀ r2 ∈ s2.rows, r2.file_path ∈ s.rows.map Row.file_path ∨ r2.file_path ∈ l.map Prod.fst) ∧
      st2.deleted = st.deleted ∧ st.skipped ≤ st2.skipped ∧
      (pathsNodup s → pathsNodup s2) := by
  intro l
  induction l with
  | nil =>
      intro st s tr
      exact ⟨st, s, [], by simp, by simp, fun q _ => rfl, fun r2 h => Or.inl
        (List.mem_map.mpr ⟨r2, h, rfl⟩), rfl, le_refl _, fun h => h⟩
  | cons pc rest ih =>
      intro st s tr
      obtain ⟨p, c⟩ := pc
      obtain ⟨st1, s1, evs1, heq1, hstore1, hevs1, hdel1, hskip1⟩ :=
        process_file_shape env snapshot now st s tr p c
      rw [List.foldl_cons, heq1]
      obtain ⟨st2, s2, evs2, heq2, hevs2, hfr2, hrows2, hdel2, hskip2, hnd2⟩ :=
        ih st1 s1 (tr ++ evs1)
      refine ⟨st2, s2, evs1 ++ evs2, by rw [heq2, List.append_assoc], ?_, ?_, ?_, ?_, ?_, ?_⟩
      · intro e he
        rw [List.map_cons]
        rcases List.mem_append.mp he with h | h
        · rw [hevs1 e h]
          exact List.mem_cons_self p _
        · exact List.mem_cons_of_mem p (hevs2 e h)
      · intro q hq
        rw [List.map_cons] at hq
        have hqp : q ≠ p := fun h => hq (h ▸ List.mem_cons_self p _)
        have hqrest : q ∉ rest.map Prod.fst := fun h => hq (List.mem_cons_of_mem p h)
        rw [hfr2 q hqrest]
        rcases hstore1 with h | ⟨v, h⟩
        · rw [h]
        · rw [h]
          exact find_row_upsert_other s p q (env.hash c) c v now hqp
      · intro r2 hr2
        rcases hrows2 r2 hr2 with h | h
        · obtain ⟨r1, hr1, hr1p⟩ := List.mem_map.mp h
          rcases hstore1 with hs1 | ⟨v, hs1⟩
          · subst hs1
            exact Or.inl (hr1p ▸ List.mem_map.mpr ⟨r1, hr1, rfl⟩)
          · subst hs1
            rcases upsert_row_paths s p (env.hash c) c v now r1 hr1 with h2 | h2
            · exact Or.inl (hr1p ▸ h2)
            · rw [List.map_cons]
              refine Or.inr ?_
              rw [← hr1p, h2]
              exact List.mem_cons_self p _
        · rw [List.map_cons]
          exact Or.inr (List.mem_cons_of_mem p h)
      · rw [hdel2, hdel1]
      · exact le_trans hskip1 hskip2
      · intro hnd
        refine hnd2 ?_
        rcases hstore1 with h | ⟨v, h⟩
        · rw [h]; exact hnd
        · rw [h]; exact pathsNodup_upsert s p (env.hash c) c v now hnd

/-! ## Lemmas for the deletion pass -/

/-- Every row deleted from a store had that path; no row with the deleted
path survives. -/
theorem delete_row_no_path (s : Store) (p : String) :
    ∀ r2 ∈ (delete_row s p).rows, r2.file_path ≠ p := by
  intro r2 hr2
  have := (List.mem_filter.mp hr2).2
  simpa using this

/-- The deletion pass only removes rows. -/
theorem delete_pass_sub (disk : List String) :
    ∀ (snapshot : List MarkdownDocument) (st : Stats) (s : Store) (tr : List Event),
    ∀ r2 ∈ (delete_pass snapshot disk (st, s, tr)).2.1.rows, r2 ∈ s.rows := by
  intro snapshot
  induction snapshot with
  | nil => intro st s tr r2 h; exact h
  | cons d rest ih =>
      intro st s tr r2 h
      unfold delete_pass at h
      rw [List.foldl_cons] at h
      by_cases hd : d.file_path ∈ disk
      · rw [if_pos hd] at h
        exact ih st s tr r2 h
      · rw [if_neg hd] at h
        have := ih { st with deleted := st.deleted + 1 } (delete_row s d.file_path)
          (tr ++ [Event.deleteDoc d.file_path]) r2 h
        exact (List.mem_filter.mp this).1

/-- After the deletion pass, no row carries the path of a snapshot entry
that was absent from disk. -/
theorem delete_pass_kills (disk : List String) :
    ∀ (snapshot : List MarkdownDocument) (st : Stats) (s : Store) (tr : List Event)
      (d0 : MarkdownDocument), d0 ∈ snapshot → d0.file_path ∉ disk →
    ∀ r2 ∈ (delete_pass snapshot disk (st, s, tr)).2.1.rows, r2.file_path ≠ d0.file_path := by
  intro snapshot
  induction snapshot with
  | nil => intro st s tr d0 h0; cases h0
  | cons d rest ih =>
      intro st s tr d0 h0 hnd r2 h
      unfold delete_pass at h
      rw [List.foldl_cons] at h
      rcases List.mem_cons.mp h0 with rfl | h0
      · rw [if_neg hnd] at h
        have hsub : r2 ∈ (delete_row s d0.file_path).rows := delete_pass_sub disk rest _ _ _ r2 h
        exact delete_row_no_path s d0.file_path r2 hsub
      · by_cases hd : d.file_path ∈ disk
        · rw [if_pos hd] at h
          exact ih st s tr d0 h0 hnd r2 h
        · rw [if_neg hd] at h
          exact ih _ _ _ d0 h0 hnd r2 h

/-- The deletion pass does not move rows whose path is still on disk. -/
theorem delete_pass_find_row (disk : List String) :
    ∀ (snapshot : List MarkdownDocument) (st : Stats) (s : Store) (tr : List Event)
      (q : String), q ∈ disk →
    find_row (delete_pass snapshot disk (st, s, tr)).2.1 q = find_row s q := by
  intro snapshot
  induction snapshot with
  | nil => intro st s tr q _; rfl
  | cons d rest ih =>
      intro st s tr q hq
      unfold delete_pass
      rw [List.foldl_cons]
      by_cases hd : d.file_path ∈ disk
      · rw [if_pos hd]
        exact ih st s tr q hq
      · rw [if_neg hd]
        have hne : q ≠ d.file_path := fun h => hd (h ▸ hq)
        have step := ih { st with deleted := st.deleted + 1 } (delete_row s d.file_path)
          (tr ++ [Event.deleteDoc d.file_path]) q hq
        exact step.trans (find_row_delete_other s d.file_path q hne)

/-- The deletion pass touches only the `deleted` counter. -/
theorem delete_pass_stats (disk : List String) :
    ∀ (snapshot : List MarkdownDocument) (st : Stats) (s : Store) (tr : List Event),
    (delete_pass snapshot disk (st, s, tr)).1.indexed = st.indexed ∧
      (delete_pass snapshot disk (st, s, tr)).1.updated = st.updated ∧
      (delete_pass snapshot disk (st, s, tr)).1.skipped = st.skipped := by
  intro snapshot
  induction snapshot with
  | nil => intro st s tr; exact ⟨rfl, rfl, rfl⟩
  | cons d rest ih =>
      intro st s tr
      unfold delete_pass
      rw [List.foldl_cons]
      by_cases hd : d.file_path ∈ disk
      · rw [if_pos hd]
        exact ih st s tr
      · rw [if_neg hd]
        exact ih _ _ _

/-- The deletion pass appends only delete events for paths absent from
disk. -/
theorem delete_pass_trace (disk : List String) :
    ∀ (snapshot : List MarkdownDocument) (st : Stats) (s : Store) (tr : List Event),
    ∃ evs, (delete_pass snapshot disk (st, s, tr)).2.2 = tr ++ evs ∧
      ∀ e ∈ evs, e.path ∉ disk := by
  intro snapshot
  induction snapshot with
  | nil => intro st s tr; exact ⟨[], by simp [delete_pass], by simp⟩
  | cons d rest ih =>
      intro st s tr
      unfold delete_pass
      rw [List.foldl_cons]
      by_cases hd : d.file_path ∈ disk
      · rw [if_pos hd]
        exact ih st s tr
      · rw [if_neg hd]
        obtain ⟨evs, heq, hevs⟩ := ih { st with deleted := st.deleted + 1 }
          (delete_row s d.file_path) (tr ++ [Event.deleteDoc d.file_path])
        refine ⟨[Event.deleteDoc d.file_path] ++ evs, ?_, ?_⟩
        · unfold delete_pass at heq
          rw [heq, List.append_assoc]
        · intro e he
          rcases List.mem_append.mp he with h | h
          · have : e = Event.deleteDoc d.file_path := by simpa using h
            subst this
            exact hd
          · exact hevs e h

/-- The deletion pass preserves path uniqueness. -/
theorem delete_pass_nodup (disk : List String) :
    ∀ (snapshot : List MarkdownDocument) (st : Stats) (s : Store) (tr : List Event),
    pathsNodup s → pathsNodup (delete_pass snapshot disk (st, s, tr)).2.1 := by
  intro snapshot
  induction snapshot with
  | nil => intro st s tr h; exact h
  | cons d rest ih =>
      intro st s tr h
      unfold delete_pass
      rw [List.foldl_cons]
      by_cases hd : d.file_path ∈ disk
      · rw [if_pos hd]
        exact ih st s tr h
      · rw [if_neg hd]
        exact ih _ _ _ (pathsNodup_delete s d.file_path h)

/-- When every snapshot path is still on disk, the deletion pass is the
identity. -/
theorem delete_pass_noop (disk : List String) :
    ∀ (snapshot : List MarkdownDocument) (acc : Stats × Store × List Event),
    (∀ d ∈ snapshot, d.file_path ∈ disk) →
    delete_pass snapshot disk acc = acc := by
  intro snapshot
  induction snapshot with
  | nil => intro acc _; rfl
  | cons d rest ih =>
      intro acc h
      unfold delete_pass
      rw [List.foldl_cons, if_pos (h d (List.mem_cons_self d rest))]
      exact ih acc (fun d2 h2 => h d2 (List.mem_cons_of_mem d h2))

/-! ## Membership in the unbounded snapshot -/

/-- Every snapshot document converts a table row. -/
theorem get_all_mem_inv (s : Store) (d : MarkdownDocument)
    (h : d ∈ get_all_documents s none 0) : ∃ r ∈ s.rows, d = row_to_document r := by
  unfold get_all_documents at h
  simp only [List.drop_zero] at h
  obtain ⟨r, hr, hrd⟩ := List.mem_map.mp h
  exact ⟨r, (List.perm_insertionSort indexedAtDesc s.rows).mem_iff.mp hr, hrd.symm⟩

/-- Every table row appears in the snapshot. -/
theorem get_all_mem (s : Store) (r : Row) (h : r ∈ s.rows) :
    row_to_document r ∈ get_all_documents s none 0 := by
  unfold get_all_documents
  simp only [List.drop_zero]
  exact List.mem_map.mpr ⟨r, (List.perm_insertionSort indexedAtDesc s.rows).mem_iff.mpr h, rfl⟩

/-! ## The reconciliation invariant -/

/-- Per-path postcondition of a reconciliation run: the path's row in the
store (if any) already carries the fingerprint of the on-disk content, or
ingestion of that content deterministically fails. -/
def live_good (env : Env) (s : Store) (p c : String) : Prop :=
  (∃ r, find_row s p = some r ∧ r.checksum = env.hash c) ∨ ingest_fails env p c

/-- The invariant only looks at the row of its own path. -/
theorem live_good_congr (env : Env) (s1 s2 : Store) (p c : String)
    (h : find_row s1 p = find_row s2 p) : live_good env s1 p c → live_good env s2 p c := by
  intro hg
  rcases hg with ⟨r, hr, hck⟩ | hf
  · exact Or.inl ⟨r, h ▸ hr, hck⟩
  · exact Or.inr hf

/-- Running the reconciliation loop establishes the invariant at every
processed path, provided paths are distinct and the snapshot agrees with
the reference store at every processed path. -/
theorem loop_establishes_live_good (env : Env) (snapshot : List MarkdownDocument) (now : Nat)
    (s0 : Store) :
    ∀ (l : List (String × String)) (st : Stats) (s : Store) (tr : List Event),
    (l.map Prod.fst).Nodup →
    (∀ pc ∈ l, find_row s pc.1 = find_row s0 pc.1) →
    (∀ pc ∈ l, snapshot.find? (fun x => x.file_path == pc.1) =
      (find_row s0 pc.1).map row_to_document) →
    ∀ pc ∈ l, live_good env
      (l.foldl (process_file env snapshot now) (st, s, tr)).2.1 pc.1 pc.2 := by
  intro l
  induction l with
  | nil => intro st s tr _ _ _ pc hpc; cases hpc
  | cons hd rest ih =>
      intro st s tr hnd hfr hsnap pc hpc
      obtain ⟨p, c⟩ := hd
      rw [List.foldl_cons]
      have hfrp : find_row s p = find_row s0 p := hfr (p, c) (List.mem_cons_self _ _)
      have hsnapp : snapshot.find? (fun x => x.file_path == p) =
        (find_row s0 p).map row_to_document := hsnap (p, c) (List.mem_cons_self _ _)
      rw [List.map_cons] at hnd
      have hpnotin : p ∉ rest.map Prod.fst := (List.nodup_cons.mp hnd).1
      have hndrest : (rest.map Prod.fst).Nodup := (List.nodup_cons.mp hnd).2
      obtain ⟨st1, s1, evs1, heq1, hstore1, hevs1, hdel1, hskip1⟩ :=
        process_file_shape env snapshot now st s tr p c
      have hstep_good : live_good env s1 p c := by
        cases hfind0 : find_row s0 p with
        | none =>
            have hfind : snapshot.find? (fun x => x.file_path == p) = none := by
              rw [hsnapp, hfind0]; rfl
            by_cases hfail : ingest_fails env p c
            · exact Or.inr hfail
            · obtain ⟨v, hv, heq⟩ := process_file_new_ok env snapshot now st s tr p c hfind hfail
              rw [heq] at heq1
              injection heq1 with h1 h2
              injection h2 with h2a h2b
              obtain ⟨r, hrf, hrp, hrck, _, _⟩ := find_row_upsert_self s p (env.hash c) c v now
              exact Or.inl ⟨r, h2a ▸ hrf, hrck⟩
        | some r0 =>
            have hfind : snapshot.find? (fun x => x.file_path == p) =
                some (row_to_document r0) := by rw [hsnapp, hfind0]; rfl
            by_cases hck : (row_to_document r0).checksum = env.hash c
            · rw [process_file_skip env snapshot now st s tr p c _ hfind hck] at heq1
              injection heq1 with h1 h2
              injection h2 with h2a h2b
              refine Or.inl ⟨r0, ?_, hck⟩
              rw [← h2a, hfrp, hfind0]
            · by_cases hfail : ingest_fails env p c
              · exact Or.inr hfail
              · obtain ⟨v, hv, heq⟩ :=
                  process_file_update_ok env snapshot now st s tr p c _ hfind hck hfail
                rw [heq] at heq1
                injection heq1 with h1 h2
                injection h2 with h2a h2b
                obtain ⟨r, hrf, hrp, hrck, _, _⟩ := find_row_upsert_self s p (env.hash c) c v now
                exact Or.inl ⟨r, h2a ▸ hrf, hrck⟩
      rcases List.mem_cons.mp hpc with rfl | hpc2
      · rw [heq1]
        obtain ⟨st2, s2, evs2, heq2, hevs2, hfr2, hrows2, hdel2, hskip2, hnd2⟩ :=
          foldl_process_file_shape env snapshot now rest st1 s1 (tr ++ evs1)
        rw [heq2]
        exact live_good_congr env s1 s2 p c (hfr2 p hpnotin).symm hstep_good
      · rw [heq1]
        refine ih st1 s1 (tr ++ evs1) hndrest ?_ ?_ pc hpc2
        · intro qc hqc
          have hq : qc.1 ∈ rest.map Prod.fst := List.mem_map.mpr ⟨qc, hqc, rfl⟩
          have hqp : qc.1 ≠ p := fun h => hpnotin (h ▸ hq)
          have hbase := hfr qc (List.mem_cons_of_mem _ hqc)
          rcases hstore1 with h | ⟨v, h⟩
          · rw [h]; exact hbase
          · rw [h, find_row_upsert_other s p qc.1 (env.hash c) c v now hqp]
            exact hbase
        · intro qc hqc
          exact hsnap qc (List.mem_cons_of_mem _ hqc)

/-- When the invariant already holds everywhere and the snapshot reflects
the store, the reconciliation loop changes nothing: the store is returned
as-is and the `indexed`, `updated` and `deleted` counters are untouched. -/
theorem loop_no_changes (env : Env) (snapshot : List MarkdownDocument) (now : Nat)
    (s1 : Store) :
    ∀ (l : List (String × String)) (st : Stats) (tr : List Event),
    (∀ pc ∈ l, snapshot.find? (fun x => x.file_path == pc.1) =
      (find_row s1 pc.1).map row_to_document) →
    (∀ pc ∈ l, live_good env s1 pc.1 pc.2) →
    ∃ st2 tr2, l.foldl (process_file env snapshot now) (st, s1, tr) = (st2, s1, tr2) ∧
      st2.indexed = st.indexed ∧ st2.updated = st.updated ∧ st2.deleted = st.deleted := by
  intro l
  induction l with
  | nil => intro st tr _ _; exact ⟨st, tr, rfl, rfl, rfl, rfl⟩
  | cons hd rest ih =>
      intro st tr hsnap hgood
      obtain ⟨p, c⟩ := hd
      have hsnapp := hsnap (p, c) (List.mem_cons_self _ _)
      have hgoodp := hgood (p, c) (List.mem_cons_self _ _)
      rw [List.foldl_cons]
      have hstep : ∃ st1 tr1,
          process_file env snapshot now (st, s1, tr) (p, c) = (st1, s1, tr1) ∧
          st1.indexed = st.indexed ∧ st1.updated = st.updated ∧
          st1.deleted = st.deleted := by
        cases hfind0 : find_row s1 p with
        | none =>
            have hfind : snapshot.find? (fun x => x.file_path == p) = none := by
              rw [hsnapp, hfind0]; rfl
            have hfail : ingest_fails env p c := by
              rcases hgoodp with ⟨r, hr, _⟩ | hf
              · rw [hfind0] at hr; cases hr
              · exact hf
            rw [process_file_new_error env snapshot now st s1 tr p c hfind hfail]
            exact ⟨_, _, rfl, rfl, rfl, rfl⟩
        | some r0 =>
            have hfind : snapshot.find? (fun x => x.file_path == p) =
                some (row_to_document r0) := by rw [hsnapp, hfind0]; rfl
            by_cases hck : (row_to_document r0).checksum = env.hash c
            · rw [process_file_skip env snapshot now st s1 tr p c _ hfind hck]
              exact ⟨_, _, rfl, rfl, rfl, rfl⟩
            · have hfail : ingest_fails env p c := by
                rcases hgoodp with ⟨r, hr, hrck⟩ | hf
                · rw [hfind0] at hr
                  injection hr with hreq
                  subst hreq
                  exact absurd hrck hck
                · exact hf
              rw [process_file_update_error env snapshot now st s1 tr p c _ hfind hck hfail]
              exact ⟨_, _, rfl, rfl, rfl, rfl⟩
      obtain ⟨st1, tr1, heq1, hi1, hu1, hd1⟩ := hstep
      rw [heq1]
      obtain ⟨st2, tr2, heq2, hi2, hu2, hd2⟩ := ih st1 tr1
        (fun qc hqc => hsnap qc (List.mem_cons_of_mem _ hqc))
        (fun qc hqc => hgood qc (List.mem_cons_of_mem _ hqc))
      exact ⟨st2, tr2, heq2, hi2.trans hi1, hu2.trans hu1, hd2.trans hd1⟩

/-! ## Postcondition of one full reconciliation -/

/-- After one full reconciliation: paths stay unique, every surviving row's
path is on disk, and the invariant holds at every on-disk markdown file. -/
theorem index_directory_post (env : Env) (fs : List (String × String)) (now : Nat)
    (s0 : Store)
    (hfs : ((find_markdown_files fs).map Prod.fst).Nodup) (hs0 : pathsNodup s0) :
    pathsNodup (index_directory env fs now s0).2.1 ∧
      (∀ r ∈ (index_directory env fs now s0).2.1.rows,
        r.file_path ∈ (find_markdown_files fs).map Prod.fst) ∧
      (∀ pc ∈ find_markdown_files fs,
        live_good env (index_directory env fs now s0).2.1 pc.1 pc.2) := by
  obtain ⟨stA, sA, evsA, heqA, hevsA, hfrA, hrowsA, hdelA, hskipA, hndA⟩ :=
    foldl_process_file_shape env (get_all_documents s0 none 0) now
      (find_markdown_files fs) Stats.zero s0 []
  have hshow : index_directory env fs now s0 =
      delete_pass (get_all_documents s0 none 0) ((find_markdown_files fs).map Prod.fst)
        (stA, sA, [] ++ evsA) := by
    show delete_pass (get_all_documents s0 none 0) ((find_markdown_files fs).map Prod.fst)
        ((find_markdown_files fs).foldl
          (process_file env (get_all_documents s0 none 0) now) (Stats.zero, s0, [])) = _
    rw [heqA]
  refine ⟨?_, ?_, ?_⟩
  · rw [hshow]
    exact delete_pass_nodup _ _ stA sA ([] ++ evsA) (hndA hs0)
  · intro r hr
    rw [hshow] at hr
    have hrA : r ∈ sA.rows := delete_pass_sub _ _ stA sA ([] ++ evsA) r hr
    rcases hrowsA r hrA with h | h
    · obtain ⟨r0, hr0, hr0p⟩ := List.mem_map.mp h
      by_cases hdisk : r.file_path ∈ (find_markdown_files fs).map Prod.fst
      · exact hdisk
      · exfalso
        have hd0 : row_to_document r0 ∈ get_all_documents s0 none 0 := get_all_mem s0 r0 hr0
        have hd0p : (row_to_document r0).file_path ∉ (find_markdown_files fs).map Prod.fst := by
          show r0.file_path ∉ _
          rw [hr0p]
          exact hdisk
        exact delete_pass_kills _ _ stA sA ([] ++ evsA) (row_to_document r0) hd0 hd0p r hr
          (by show r.file_path = r0.file_path; rw [hr0p])
    · exact h
  · intro pc hpc
    have hdisk : pc.1 ∈ (find_markdown_files fs).map Prod.fst :=
      List.mem_map.mpr ⟨pc, hpc, rfl⟩
    have hloop : ∀ qc ∈ find_markdown_files fs,
        live_good env sA qc.1 qc.2 := by
      intro qc hqc
      have := loop_establishes_live_good env (get_all_documents s0 none 0) now s0
        (find_markdown_files fs) Stats.zero s0 [] hfs
        (fun _ _ => rfl)
        (fun rc _ => snapshot_find?_eq s0 rc.1 hs0)
        qc hqc
      rw [heqA] at this
      exact this
    have hfr : find_row (index_directory env fs now s0).2.1 pc.1 = find_row sA pc.1 := by
      rw [hshow]
      exact delete_pass_find_row _ _ stA sA ([] ++ evsA) pc.1 hdisk
    exact live_good_congr env sA _ pc.1 pc.2 hfr.symm (hloop pc hpc)

/-! ## Claim C4 — idempotence of full reconciliation -/

/-- Claim C4: full reconciliation is idempotent.  Re-running
`index_directory` on an unchanged filesystem reports zero `indexed` (the
spec's `created`), zero `updated` and zero `deleted`, and returns the
persisted document set byte-for-byte unchanged.  The hypotheses state what
the operating system and the database schema guarantee: distinct scanned
paths and a unique `file_path` key. -/
theorem index_directory_idempotent (env : Env) (fs : List (String × String))
    (now1 now2 : Nat) (s0 : Store)
    (hfs : ((find_markdown_files fs).map Prod.fst).Nodup) (hs0 : pathsNodup s0) :
    (index_directory env fs now2 (index_directory env fs now1 s0).2.1).1.indexed = 0 ∧
      (index_directory env fs now2 (index_directory env fs now1 s0).2.1).1.updated = 0 ∧
      (index_directory env fs now2 (index_directory env fs now1 s0).2.1).1.deleted = 0 ∧
      (index_directory env fs now2 (index_directory env fs now1 s0).2.1).2.1 =
        (index_directory env fs now1 s0).2.1 := by
  obtain ⟨hnd1, hrows1, hgood1⟩ := index_directory_post env fs now1 s0 hfs hs0
  obtain ⟨st2, tr2, heq2, hi2, hu2, hd2⟩ :=
    loop_no_changes env (get_all_documents (index_directory env fs now1 s0).2.1 none 0) now2
      (index_directory env fs now1 s0).2.1 (find_markdown_files fs) Stats.zero []
      (fun pc _ => snapshot_find?_eq (index_directory env fs now1 s0).2.1 pc.1 hnd1)
      hgood1
  have hnoop : delete_pass (get_all_documents (index_directory env fs now1 s0).2.1 none 0)
      ((find_markdown_files fs).map Prod.fst) (st2, (index_directory env fs now1 s0).2.1, tr2) =
      (st2, (index_directory env fs now1 s0).2.1, tr2) := by
    refine delete_pass_noop _ _ _ ?_
    intro d hd
    obtain ⟨r, hr, hdr⟩ := get_all_mem_inv _ d hd
    rw [hdr]
    exact hrows1 r hr
  have hshow : index_directory env fs now2 (index_directory env fs now1 s0).2.1 =
      (st2, (index_directory env fs now1 s0).2.1, tr2) := by
    show delete_pass (get_all_documents (index_directory env fs now1 s0).2.1 none 0)
        ((find_markdown_files fs).map Prod.fst)
        ((find_markdown_files fs).foldl
          (process_file env (get_all_documents (index_directory env fs now1 s0).2.1 none 0) now2)
          (Stats.zero, (index_directory env fs now1 s0).2.1, [])) = _
    rw [heq2, hnoop]
  rw [hshow]
  exact ⟨hi2, hu2, hd2, rfl⟩

/-- Witness for C4: one file, an initially empty store, an embedder that
always succeeds.  The first run indexes the file; the second changes
nothing and counts zero created, updated and deleted. -/
theorem index_directory_idempotent_witness :
    (index_directory envId [("/kb/a.md", "hello")] 2
        (index_directory envId [("/kb/a.md", "hello")] 1 emptyStore).2.1).1.indexed = 0 ∧
      (index_directory envId [("/kb/a.md", "hello")] 2
        (index_directory envId [("/kb/a.md", "hello")] 1 emptyStore).2.1).1.updated = 0 ∧
      (index_directory envId [("/kb/a.md", "hello")] 2
        (index_directory envId [("/kb/a.md", "hello")] 1 emptyStore).2.1).1.deleted = 0 ∧
      (index_directory envId [("/kb/a.md", "hello")] 2
        (index_directory envId [("/kb/a.md", "hello")] 1 emptyStore).2.1).2.1 =
        (index_directory envId [("/kb/a.md", "hello")] 1 emptyStore).2.1 :=
  index_directory_idempotent envId [("/kb/a.md", "hello")] 1 2 emptyStore
    (by decide) (by unfold pathsNodup; decide)

/-! ## Claim C5 — what reconciliation does to an unchanged file -/

/-- Claim C5 as stated is false: the loop body reads the file's content
*before* comparing fingerprints (`indexer.py` lines 92–94 precede the
lookup at line 97), so even a file whose fingerprint matches — counted
under `skipped`, its record untouched — gets a content read.  Concretely:
one unchanged file, one matching record; the run skips it, leaves the
store byte-identical, and the trace still contains the content read. -/
theorem reconciliation_skip_reads_content_cex :
    (index_directory envId [("/kb/a.md", "hello")] 9 storeOne).1.skipped = 1 ∧
      (index_directory envId [("/kb/a.md", "hello")] 9 storeOne).2.1 = storeOne ∧
      Event.contentRead "/kb/a.md" ∈
        (index_directory envId [("/kb/a.md", "hello")] 9 storeOne).2.2 := by
  refine ⟨?_, ?_, ?_⟩ <;> decide

/-- Claim C5 amended: during full reconciliation, for every on-disk
markdown path whose persisted record has a matching fingerprint, that
path's record survives unchanged, the only events touching that path are
its fingerprint read and its content read (in particular no upsert and no
delete), and the `skipped` counter is incremented — but the content *is*
read, the read happening before the fingerprint comparison. -/
theorem reconciliation_skip_frame (env : Env) (fs : List (String × String)) (now : Nat)
    (s : Store) (p c : String) (r : Row)
    (hmem : (p, c) ∈ find_markdown_files fs)
    (hfs : ((find_markdown_files fs).map Prod.fst).Nodup)
    (hs : pathsNodup s)
    (hr : find_row s p = some r)
    (hck : r.checksum = env.hash c) :
    find_row (index_directory env fs now s).2.1 p = some r ∧
      Event.contentRead p ∈ (index_directory env fs now s).2.2 ∧
      (∀ e ∈ (index_directory env fs now s).2.2, e.path = p →
        e = Event.fingerprintRead p ∨ e = Event.contentRead p) ∧
      1 ≤ (index_directory env fs now s).1.skipped := by
  obtain ⟨l1, l2, hsplit⟩ := List.append_of_mem hmem
  have hpdisk : p ∈ (find_markdown_files fs).map Prod.fst :=
    List.mem_map.mpr ⟨(p, c), hmem, rfl⟩
  have hmapsplit : (find_markdown_files fs).map Prod.fst =
      l1.map Prod.fst ++ p :: l2.map Prod.fst := by
    rw [hsplit, List.map_append, List.map_cons]
  have hnd2 : (l1.map Prod.fst ++ p :: l2.map Prod.fst).Nodup := hmapsplit ▸ hfs
  have hpl1 : p ∉ l1.map Prod.fst := by
    intro hp
    exact (List.nodup_append.mp hnd2).2.2 hp (List.mem_cons_self _ _)
  have hpl2 : p ∉ l2.map Prod.fst :=
    (List.nodup_cons.mp (List.nodup_append.mp hnd2).2.1).1
  obtain ⟨st1, s1, evs1, heq1, hevs1, hfr1, hrows1, hdel1, hskip1, hnd1⟩ :=
    foldl_process_file_shape env (get_all_documents s none 0) now l1 Stats.zero s []
  have hfr1p : find_row s1 p = some r := by rw [hfr1 p hpl1, hr]
  have hsnapp : (get_all_documents s none 0).find? (fun x => x.file_path == p) =
      some (row_to_document r) := by
    rw [snapshot_find?_eq s p hs, hr]
    rfl
  have hstep := process_file_skip env (get_all_documents s none 0) now st1 s1 ([] ++ evs1)
    p c (row_to_document r) hsnapp (show (row_to_document r).checksum = env.hash c from hck)
  obtain ⟨st3, s3, evs3, heq3, hevs3, hfr3, hrows3, hdel3, hskip3, hnd3⟩ :=
    foldl_process_file_shape env (get_all_documents s none 0) now l2
      { st1 with skipped := st1.skipped + 1 } s1
      (([] ++ evs1) ++ [Event.fingerprintRead p, Event.contentRead p])
  have hloop : (find_markdown_files fs).foldl
      (process_file env (get_all_documents s none 0) now) (Stats.zero, s, []) =
      (st3, s3, ((([] ++ evs1) ++ [Event.fingerprintRead p, Event.contentRead p]) ++ evs3)) := by
    rw [hsplit, List.foldl_append, heq1, List.foldl_cons, hstep, heq3]
  have hshow : index_directory env fs now s =
      delete_pass (get_all_documents s none 0) ((find_markdown_files fs).map Prod.fst)
        (st3, s3, ((([] ++ evs1) ++ [Event.fingerprintRead p, Event.contentRead p]) ++ evs3)) := by
    show delete_pass (get_all_documents s none 0) ((find_markdown_files fs).map Prod.fst)
        ((find_markdown_files fs).foldl
          (process_file env (get_all_documents s none 0) now) (Stats.zero, s, [])) = _
    rw [hloop]
  obtain ⟨evs4, heq4, hevs4⟩ := delete_pass_trace ((find_markdown_files fs).map Prod.fst)
    (get_all_documents s none 0) st3 s3
    ((([] ++ evs1) ++ [Event.fingerprintRead p, Event.contentRead p]) ++ evs3)
  refine ⟨?_, ?_, ?_, ?_⟩
  · rw [hshow]
    rw [delete_pass_find_row ((find_markdown_files fs).map Prod.fst)
      (get_all_documents s none 0) st3 s3 _ p hpdisk]
    rw [hfr3 p hpl2]
    exact hfr1p
  · rw [hshow]
    show Event.contentRead p ∈ (delete_pass _ _ _).2.2
    rw [heq4]
    refine List.mem_append.mpr (Or.inl ?_)
    refine List.mem_append.mpr (Or.inl ?_)
    refine List.mem_append.mpr (Or.inr ?_)
    simp
  · intro e he hep
    rw [hshow] at he
    rw [heq4] at he
    rcases List.mem_append.mp he with he | he
    · rcases List.mem_append.mp he with he | he
      · rcases List.mem_append.mp he with he | he
        · exfalso
          have : Event.path e ∈ l1.map Prod.fst := hevs1 e (by simpa using he)
          rw [hep] at this
          exact hpl1 this
        · have : e = Event.fingerprintRead p ∨ e = Event.contentRead p := by
            simpa using he
          exact this
      · exfalso
        have : Event.path e ∈ l2.map Prod.fst := hevs3 e he
        rw [hep] at this
        exact hpl2 this
    · exfalso
      have := hevs4 e he
      rw [hep] at this
      exact this hpdisk
  · rw [hshow]
    have hstats := delete_pass_stats ((find_markdown_files fs).map Prod.fst)
      (get_all_documents s none 0) st3 s3
      ((([] ++ evs1) ++ [Event.fingerprintRead p, Event.contentRead p]) ++ evs3)
    rw [hstats.2.2]
    exact le_trans (Nat.succ_le_succ (Nat.zero_le st1.skipped)) hskip3

/-- Witness for the amended C5 at the concrete skip scenario. -/
theorem reconciliation_skip_frame_witness :
    find_row (index_directory envId [("/kb/a.md", "hello")] 9 storeOne).2.1 "/kb/a.md" =
        some ⟨1, "/kb/a.md", "hello", "hello", some [1], 0, 0⟩ ∧
      Event.contentRead "/kb/a.md" ∈
        (index_directory envId [("/kb/a.md", "hello")] 9 storeOne).2.2 ∧
      (∀ e ∈ (index_directory envId [("/kb/a.md", "hello")] 9 storeOne).2.2,
        e.path = "/kb/a.md" →
        e = Event.fingerprintRead "/kb/a.md" ∨ e = Event.contentRead "/kb/a.md") ∧
      1 ≤ (index_directory envId [("/kb/a.md", "hello")] 9 storeOne).1.skipped :=
  reconciliation_skip_frame envId [("/kb/a.md", "hello")] 9 storeOne "/kb/a.md" "hello"
    ⟨1, "/kb/a.md", "hello", "hello", some [1], 0, 0⟩
    (by decide) (by decide) (by unfold pathsNodup; decide) (by decide) (by decide)

/-! ## Claim C8 — the watcher defers deletions to reconciliation -/

/-- Claim C8: the Change Watcher never removes a Document.  Processing a
delete event returns the store exactly as given (the event is only
logged), regardless of the path.  Removal happens at the next full
reconciliation: a stored row whose path is no longer among the on-disk
markdown files is gone from the store after `index_directory`. -/
theorem watcher_defers_delete :
    (∀ (env : Env) (fs : List (String × String)) (now : Nat) (p : String) (s : Store),
      watch_step env fs now (Change.deleted, p) s = s) ∧
    (∀ (env : Env) (fs : List (String × String)) (now : Nat) (p : String) (s : Store)
        (r : Row),
      find_row s p = some r → p ∉ (find_markdown_files fs).map Prod.fst →
      find_row (index_directory env fs now s).2.1 p = none) := by
  constructor
  · intro env fs now p s
    unfold watch_step
    by_cases h : strLower (path_suffix p) = ".md"
    · rw [if_pos h]
    · rw [if_neg h]
  · intro env fs now p s r hr hnd
    obtain ⟨st1, s1, evs1, heq1, hevs1, hfr1, hrows1, hdel1, hskip1, hnd1⟩ :=
      foldl_process_file_shape env (get_all_documents s none 0) now
        (find_markdown_files fs) Stats.zero s []
    have hr2 : s.rows.find? (fun x => x.file_path == p) = some r := hr
    have hrp : r.file_path = p := by simpa using List.find?_some hr2
    have hd0 : row_to_document r ∈ get_all_documents s none 0 :=
      get_all_mem s r (List.mem_of_find?_eq_some hr2)
    have hd0p : (row_to_document r).file_path ∉ (find_markdown_files fs).map Prod.fst := by
      show r.file_path ∉ _
      rw [hrp]
      exact hnd
    have hshow : index_directory env fs now s =
        delete_pass (get_all_documents s none 0) ((find_markdown_files fs).map Prod.fst)
          (st1, s1, [] ++ evs1) := by
      show delete_pass (get_all_documents s none 0) ((find_markdown_files fs).map Prod.fst)
          ((find_markdown_files fs).foldl
            (process_file env (get_all_documents s none 0) now) (Stats.zero, s, [])) = _
      rw [heq1]
    rw [hshow]
    unfold find_row
    rw [List.find?_eq_none]
    intro r2 hr2mem
    have hkill := delete_pass_kills ((find_markdown_files fs).map Prod.fst)
      (get_all_documents s none 0) st1 s1 ([] ++ evs1) (row_to_document r) hd0 hd0p r2 hr2mem
    simp only [beq_iff_eq]
    show ¬ r2.file_path = p
    rw [← hrp]
    exact hkill

/-- Witness for C8: a concrete delete event leaves a concrete store
untouched, and the next reconciliation over a directory that no longer
holds the file removes its row. -/
theorem watcher_defers_delete_witness :
    watch_step envId [] 0 (Change.deleted, "/kb/a.md") storeOne = storeOne ∧
      find_row (index_directory envId [] 0 storeOne).2.1 "/kb/a.md" = none :=
  ⟨watcher_defers_delete.1 envId [] 0 "/kb/a.md" storeOne,
    watcher_defers_delete.2 envId [] 0 "/kb/a.md" storeOne
      ⟨1, "/kb/a.md", "hello", "hello", some [1], 0, 0⟩ (by decide) (by decide)⟩
